import Mathlib

/-!
Verification of the master-data administration tool (`src/app.py`):
the bulk mapping reconciler `process_bulk_mapping_upload` and the
hierarchical MMV id allocator `get_or_create_ids` / `get_next_rto_id`.

The embedding is shallow: Python strings become `String`, pandas cells
become `CsvCell` (`na` models `NaN`/`None`), database rows become explicit
records, each SQL statement of the source becomes a Lean function on the
table state, and exceptions become `Except`/`Option`.  The per-batch
transaction of psycopg2 (commit once at the end, rollback on exception)
is modelled by returning the initial table whenever the row loop raises.
-/

/-! ## String and character primitives (Python `str` / SQL text operations) -/

/-- Whitespace characters recognised by Python `str.strip` / SQL `TRIM`
(the space-like characters that can actually occur in CSV cells). -/
def pyIsSpace (c : Char) : Bool :=
  c == ' ' || c == '\t' || c == '\n' || c == '\r'

/-- List-level two-sided trim. -/
def stripData (l : List Char) : List Char :=
  ((l.dropWhile pyIsSpace).reverse.dropWhile pyIsSpace).reverse

/-- Python `str.strip()` / SQL `TRIM`. -/
def strip (s : String) : String :=
  ⟨stripData s.data⟩

/-- Python `str.lower()` (ASCII case fold suffices for the identifiers used). -/
def lowerStr (s : String) : String :=
  ⟨s.data.map Char.toLower⟩

/-- SQL `SUBSTRING(s, start, len)` with SQL's 1-based indexing. -/
def sqlSubstr (s : String) (start len : Nat) : String :=
  ⟨(s.data.drop (start - 1)).take len⟩

/-- SQL `s LIKE 'pat%'`: `pat` is a prefix of `s`. -/
def likeMatch (pat s : String) : Bool :=
  pat.data.isPrefixOf s.data

/-- The Postgres regex test `s ~ '^[0-9]+'`: the string begins with at
least one digit (the pattern is not anchored at the end, so a string such
as `"12ab"` also matches). -/
def numHead (s : String) : Bool :=
  match s.data with
  | [] => false
  | c :: _ => c.isDigit

/-- Numeric value of a digit string. -/
def digitsVal (l : List Char) : Nat :=
  l.foldl (fun a c => 10 * a + (c.toNat - 48)) 0

/-- Postgres `CAST(s AS INTEGER)` (also Python `int(s)`): surrounding
whitespace is ignored, and the remainder must be one or more digits;
otherwise the cast raises, modelled as `none`.  (Signs never occur in the
data handled here.) -/
def pgCastNat (s : String) : Option Nat :=
  let t := stripData s.data
  if !t.isEmpty && t.all Char.isDigit then some (digitsVal t) else none

/-- Python `int(...)` applied to a string, same acceptance as the SQL cast. -/
def pyInt (s : String) : Option Nat :=
  pgCastNat s

/-- Python `f"{n:02d}"` for a natural number. -/
def pad2 (n : Nat) : String :=
  if n < 10 then "0" ++ toString n else toString n

/-! ## Bulk mapping reconciler (`process_bulk_mapping_upload`, src/app.py) -/

/-- A pandas cell: `na` models `NaN`/`None`, otherwise the cell text. -/
inductive CsvCell where
  | na
  | s (v : String)
deriving DecidableEq, Repr

/-- Python `str(cell)`: `str(float('nan'))` prints `"nan"`. -/
def cellStr : CsvCell → String
  | .na => "nan"
  | .s v => v

/-- Python `pd.isna(cell)`. -/
def pdIsna : CsvCell → Bool
  | .na => true
  | .s _ => false

/-- The payload normalisation of the row loop:
`clean_str = str(raw).strip(); if pd.isna(raw) or clean_str.lower() in
['nan','none','null','']: clean_str = ""`. -/
def normalizePayload (c : CsvCell) : String :=
  let clean := strip (cellStr c)
  if pdIsna c || (lowerStr clean == "nan" || lowerStr clean == "none" ||
      lowerStr clean == "null" || lowerStr clean == "") then ""
  else clean

/-- A database row: `key` is the value of the business-key column
(`id_col_name`), `product_id` the value of the product column, and `vals`
the per-insurer mapping columns (`none` is SQL `NULL`). -/
structure DbRow where
  key : String
  product_id : Nat
  vals : List (String × Option String)
deriving DecidableEq, Repr

/-- A database table: its column names and its rows. -/
structure DbTable where
  cols : List String
  rows : List DbRow
deriving DecidableEq, Repr

/-- Value of column `c` in a fetched row (`RealDictCursor` row `.get`);
a column never written is `NULL`. -/
def lookupVal (r : DbRow) (c : String) : Option String :=
  match r.vals.lookup c with
  | some v => v
  | none => none

/-- The `WHERE {id_col_name} = %s [AND product_id = %s]` condition of the
row-loop queries. -/
def matchRow (pid : Option Nat) (recId : String) (r : DbRow) : Bool :=
  r.key == recId &&
    (match pid with
     | none => true
     | some p => r.product_id == p)

/-- `cur.execute(check_sql); cur.fetchone()` for
`SELECT {db_col} FROM {table} WHERE {id_col} = %s [AND product_id = %s]`:
errors when the interpolated column does not exist, otherwise returns the
first matching row's value (`none` = no row, `some none` = row with NULL). -/
def selectVal (t : DbTable) (dbCol : String) (pid : Option Nat) (recId : String) :
    Except String (Option (Option String)) :=
  if dbCol ∈ t.cols then
    .ok (((t.rows.filter (matchRow pid recId)).head?).map (fun r => lookupVal r dbCol))
  else
    .error ("no such column: " ++ dbCol)

/-- Overwrite column `c` of a row with `v`. -/
def setVal (r : DbRow) (c : String) (v : Option String) : DbRow :=
  { r with vals := (c, v) :: r.vals }

/-- `cur.execute(sql)` for
`UPDATE {table} SET {db_col} = %s WHERE {id_col} = %s [AND product_id = %s]`,
returning the updated table and `cur.rowcount`. -/
def updateVal (t : DbTable) (dbCol : String) (pid : Option Nat) (recId : String)
    (v : Option String) : Except String (DbTable × Nat) :=
  if dbCol ∈ t.cols then
    .ok ({ t with rows := t.rows.map (fun r => if matchRow pid recId r then setVal r dbCol v else r) },
         (t.rows.filter (matchRow pid recId)).length)
  else
    .error ("no such column: " ++ dbCol)

/-- The per-batch counters of `process_bulk_mapping_upload`
(`success_count`, `error_count`, `skipped_count`). -/
structure BulkCounters where
  updated : Nat
  errors : Nat
  skipped : Nat
deriving DecidableEq, Repr

/-- One iteration of the row loop of `process_bulk_mapping_upload`
(src/app.py lines 159-246): normalise the payload, fetch the current
mapping value (with the Royal Sundaram legacy fallback whose exceptions
are swallowed), decide update / skip / error, and execute the update. -/
def processRow (dbCol searchInsurer : String) (pid : Option Nat) (overwrite : Bool)
    (idCell payloadCell : CsvCell) (acc : DbTable × BulkCounters) :
    Except String (DbTable × BulkCounters) :=
  let t := acc.1
  let cnt := acc.2
  let recId := strip (cellStr idCell)
  let cleanStr := normalizePayload payloadCell
  match selectVal t dbCol pid recId with
  | .error e => .error e
  | .ok result =>
    let currentVal : Option String :=
      match result with
      | some v => v
      | none =>
        if searchInsurer = "royalsundaram" then
          match selectVal t "royal" pid recId with
          | .ok (some v) => v
          | _ => none
        else none
    if result.isNone && currentVal.isNone then
      .ok (t, { cnt with errors := cnt.errors + 1 })
    else
      let shouldUpdate :=
        if overwrite then true
        else if currentVal.isNone || currentVal == some "" || currentVal == some "\x7b\x7d" then
          cleanStr != ""
        else if currentVal.getD "" != cleanStr then true
        else false
      if shouldUpdate then
        let valToSave : Option String := if cleanStr = "" then none else some cleanStr
        match updateVal t dbCol pid recId valToSave with
        | .error e => .error e
        | .ok (t2, rc) =>
          if rc > 0 then .ok (t2, { cnt with updated := cnt.updated + 1 })
          else .ok (t2, { cnt with errors := cnt.errors + 1 })
      else
        .ok (t, { cnt with skipped := cnt.skipped + 1 })

/-- The `for i, row in df.iterrows()` loop inside the open transaction:
an exception aborts the whole loop. -/
def runRows (dbCol searchInsurer : String) (pid : Option Nat) (overwrite : Bool) :
    List (CsvCell × CsvCell) → DbTable × BulkCounters → Except String (DbTable × BulkCounters)
  | [], acc => .ok acc
  | rc :: rest, acc =>
    match processRow dbCol searchInsurer pid overwrite rc.1 rc.2 acc with
    | .error e => .error e
    | .ok acc2 => runRows dbCol searchInsurer pid overwrite rest acc2

/-- The accepted business-key column aliases (`valid_id_cols`). -/
def validIdCols : List String :=
  ["ensuredit_id", "ensureditid", "id", "rto_id", "pincode", "pin_code"]

/-- The accepted payload column aliases (`valid_payload_cols`), including
the Royal Sundaram legacy alias. -/
def validPayloadCols (searchInsurer : String) : List String :=
  ["json_payload", "payload", "data", searchInsurer] ++
    (if searchInsurer = "royalsundaram" then ["royal"] else [])

/-- The column-detection loop: for each (already stripped) column name,
a case-insensitive match against an alias list records the column; the
last match wins, exactly as the Python loop's repeated assignment. -/
def findMapCols (searchInsurer : String) (cols : List String) :
    Option String × Option String :=
  cols.foldl
    (fun acc c =>
      let cl := lowerStr c
      ((if validIdCols.contains cl then some c else acc.1),
       (if (validPayloadCols searchInsurer).contains cl then some c else acc.2)))
    (none, none)

/-- An uploaded CSV: header names and rows of cells (positionally aligned
with the header). -/
structure CsvFrame where
  cols : List String
  cells : List (List CsvCell)
deriving Repr

/-- Position of a column label in the header. -/
def colIndex : List String → String → Option Nat
  | [], _ => none
  | c :: rest, target => if c = target then some 0 else (colIndex rest target).map (· + 1)

/-- `row[c]` for a dataframe row. -/
def getCell (cols : List String) (row : List CsvCell) (c : String) : CsvCell :=
  match colIndex cols c with
  | some i => row.getD i CsvCell.na
  | none => CsvCell.na

/-- The `(row[id_map_col], row[payload_map_col])` pairs of the batch. -/
def bulkRows (cols : List String) (cells : List (List CsvCell)) (idCol pCol : String) :
    List (CsvCell × CsvCell) :=
  cells.map (fun row => (getCell cols row idCol, getCell cols row pCol))

/-- The rejection message naming the accepted aliases
(`st.error(f"CSV must contain a primary ID column {valid_id_cols} and a
Data column (e.g., '{insurer}', 'json_payload', or 'data'). Found: ...")`). -/
def rejectMsg (insurer : String) (found : List String) : String :=
  "CSV must contain a primary ID column " ++ toString validIdCols ++
  " and a Data column (e.g., " ++ insurer ++ ", json_payload, or data). Found: " ++
  toString found

/-- Outcome of one bulk upload: rejected before any row (missing columns),
rolled back (exception inside the transaction), or committed with the
final counters. -/
inductive BulkOutcome where
  | rejected (msg : String)
  | txError (msg : String)
  | done (c : BulkCounters)
deriving DecidableEq, Repr

/-- `process_bulk_mapping_upload(table_name, id_col_name, insurer, df,
overwrite_existing, product_id)` (src/app.py lines 119-265).  The table the
statements run against stands for `table_name`; the rows' `key` field holds
the `id_col_name` column.  Returns the table visible after the call
(committed on success, the untouched initial table on rejection or
rollback) together with the outcome. -/
def process_bulk_mapping_upload (t : DbTable) (insurer : String) (df : CsvFrame)
    (overwrite_existing : Bool) (product_id : Option Nat) : DbTable × BulkOutcome :=
  let cols := df.cols.map strip
  let searchInsurer := lowerStr insurer
  let dbCol := lowerStr insurer
  match findMapCols searchInsurer cols with
  | (some idCol, some pCol) =>
    match runRows dbCol searchInsurer product_id overwrite_existing
        (bulkRows cols df.cells idCol pCol) (t, ⟨0, 0, 0⟩) with
    | .ok (t2, c) => (t2, .done c)
    | .error e => (t, .txError e)
  | _ => (t, .rejected (rejectMsg insurer cols))

/-! ## RTO id allocation (`get_next_rto_id`, src/app.py lines 107-114) -/

/-- Maximum of a list of naturals, `none` when empty (SQL `MAX` over no
rows is `NULL`). -/
def maxOfList : List Nat → Option Nat
  | [] => none
  | x :: xs => some (xs.foldl Nat.max x)

/-- Turns a list of cast results into the list of values, `none` as soon
as any cast raised (one failing `CAST` aborts the whole query). -/
def seqOpts : List (Option Nat) → Option (List Nat)
  | [] => some []
  | none :: _ => none
  | some x :: rest => (seqOpts rest).map (x :: ·)

/-- `SELECT MAX(CAST(id AS INTEGER)) as m FROM rto_master WHERE id ~ '^[0-9]+'`
run through `run_query`: the outer `none` is the query erroring (caught by
`run_query`, which returns `None`), `some none` is `MAX` over no rows. -/
def rtoMaxQuery (ids : List String) : Option (Option Nat) :=
  match seqOpts ((ids.filter numHead).map pgCastNat) with
  | none => none
  | some vals => some (maxOfList vals)

/-- `get_next_rto_id()`: max numeric id plus one, `1` when the query
errors or finds nothing. -/
def get_next_rto_id (ids : List String) : Nat :=
  match rtoMaxQuery ids with
  | some (some m) => m + 1
  | _ => 1

/-! ## MMV composite id allocator (`get_or_create_ids`, src/app.py lines 679-737) -/

/-- A row of `mmv_master` as the allocator sees it. -/
structure MMVRow where
  product_id : Nat
  make : String
  model : String
  variant : String
  ensuredit_id : String
deriving DecidableEq, Repr

/-- The `mmv_master` table contents. -/
abbrev MMVState := List MMVRow

/-- `make_start` per product: `101 if product_id == 1 else 401`. -/
def makeStart (p : Nat) : Nat :=
  if p = 1 then 101 else 401

/-- The Python truthiness collapse
`current = res['m'] if res and res['m'] else default` applied to a
`run_query` result: query error, `NULL`, and `0` all fall back. -/
def pyMaxFallback (q : Option (Option Nat)) (dflt : Nat) : Nat :=
  match q with
  | some (some m) => if m = 0 then dflt else m
  | _ => dflt

/-- `SELECT MAX(CAST(SUBSTRING(TRIM(ensuredit_id), 1, 3) AS INTEGER)) as m
FROM mmv_master WHERE product_id = %s AND TRIM(ensuredit_id) ~ '^[0-9]+'`
through `run_query` (outer `none` = query error, caught and returned as
`None`). -/
def mmvMakeMax (s : MMVState) (p : Nat) : Option (Option Nat) :=
  match seqOpts ((s.filter (fun r => r.product_id == p && numHead (strip r.ensuredit_id))).map
      (fun r => pgCastNat (sqlSubstr (strip r.ensuredit_id) 1 3))) with
  | none => none
  | some vals => some (maxOfList vals)

/-- `SELECT MAX(CAST(SUBSTRING(TRIM(ensuredit_id), start, len) AS INTEGER))
FROM mmv_master WHERE product_id = %s AND TRIM(ensuredit_id) LIKE 'pat%'`
through `run_query`; used with `(4,3)` for the model segment and `(7,2)`
for the variant segment. -/
def mmvSegMax (s : MMVState) (p : Nat) (pat : String) (start len : Nat) :
    Option (Option Nat) :=
  match seqOpts ((s.filter (fun r => r.product_id == p && likeMatch pat (strip r.ensuredit_id))).map
      (fun r => pgCastNat (sqlSubstr (strip r.ensuredit_id) start len))) with
  | none => none
  | some vals => some (maxOfList vals)

/-- Step 1/2 of the allocator: reuse the 3-digit make segment of the first
row with this make
(`SELECT DISTINCT SUBSTRING(ensuredit_id, 1, 3) ... WHERE make = %s AND
product_id = %s LIMIT 1`, the empty/`NULL` result falling through to the
max query); otherwise max of first-3-digits over the product scope plus 1.
`none` models the uncaught `int()` exception on a malformed segment. -/
def makeIdOpt (s : MMVState) (p : Nat) (make : String) : Option Nat :=
  match (s.filter (fun r => r.make == make && r.product_id == p)).head?.map
      (fun r => sqlSubstr r.ensuredit_id 1 3) with
  | some mid =>
    if mid = "" then some (pyMaxFallback (mmvMakeMax s p) (makeStart p - 1) + 1)
    else pyInt mid
  | none => some (pyMaxFallback (mmvMakeMax s p) (makeStart p - 1) + 1)

/-- Step 3 of the allocator: reuse the model segment of the first row with
this make and model, else max of digits 4-6 over codes `LIKE
f"{make_id}%"` in the product scope, plus 1 (`model_start = 101`). -/
def modelIdOpt (s : MMVState) (p : Nat) (make model : String) (make_id : Nat) : Option Nat :=
  match (s.filter (fun r => r.make == make && r.model == model && r.product_id == p)).head?.map
      (fun r => sqlSubstr r.ensuredit_id 4 3) with
  | some mid =>
    if mid = "" then some (pyMaxFallback (mmvSegMax s p (toString make_id) 4 3) 100 + 1)
    else pyInt mid
  | none => some (pyMaxFallback (mmvSegMax s p (toString make_id) 4 3) 100 + 1)

/-- Step 4 of the allocator: reuse the variant segment of the first row
with this make, model and variant, else max of digits 7-8 over codes
`LIKE f"{make_id}{model_id}%"` in the product scope (falling back to 0),
plus 1. -/
def variantIdOpt (s : MMVState) (p : Nat) (make model variant : String)
    (make_id model_id : Nat) : Option Nat :=
  match (s.filter (fun r => r.make == make && r.model == model &&
      r.variant == variant && r.product_id == p)).head?.map
      (fun r => sqlSubstr r.ensuredit_id 7 2) with
  | some vid =>
    if vid = "" then
      some (pyMaxFallback (mmvSegMax s p (toString make_id ++ toString model_id) 7 2) 0 + 1)
    else pyInt vid
  | none =>
    some (pyMaxFallback (mmvSegMax s p (toString make_id ++ toString model_id) 7 2) 0 + 1)

/-- `get_or_create_ids(product_id, make, model, variant)` over a table
state: the three segment computations in sequence.  `none` models an
uncaught exception (`int()` on a malformed stored segment); the SQL
`DISTINCT ... LIMIT 1` row choice is determinised to the first matching
row in table order. -/
def get_or_create_ids (s : MMVState) (p : Nat) (make model variant : String) :
    Option (Nat × Nat × Nat) :=
  (makeIdOpt s p make).bind (fun make_id =>
    (modelIdOpt s p make model make_id).bind (fun model_id =>
      (variantIdOpt s p make model variant make_id model_id).map (fun variant_id =>
        (make_id, model_id, variant_id))))

/-- The composite code built by the callers (`display_mmv_form`,
src/app.py lines 900-901 and 940-941): `f"{mk_id}{md_id}{int(vt_id):02d}"`. -/
def mkCompositeCode (mk md vt : Nat) : String :=
  toString mk ++ toString md ++ pad2 vt

/-- Segment read off a stored code: digits 1-3 as a number. -/
def seg1 (c : String) : Nat :=
  digitsVal (c.data.take 3)

/-- Segment read off a stored code: digits 4-6 as a number. -/
def seg2 (c : String) : Nat :=
  digitsVal ((c.data.drop 3).take 3)

/-- Segment read off a stored code: digits 7-8 as a number. -/
def seg3 (c : String) : Nat :=
  digitsVal (((c.data.drop 6).take 2))

/-- A stored composite code is well formed when it is exactly the 3+3+2
encoding of in-range segments (make and model segments three digits,
variant two digits), i.e. it round-trips through `mkCompositeCode`. -/
def codeWF (c : String) : Prop :=
  c = mkCompositeCode (seg1 c) (seg2 c) (seg3 c) ∧
  101 ≤ seg1 c ∧ seg1 c ≤ 999 ∧ 101 ≤ seg2 c ∧ seg2 c ≤ 999 ∧
  1 ≤ seg3 c ∧ seg3 c ≤ 99

instance (c : String) : Decidable (codeWF c) := by
  unfold codeWF
  infer_instance

/-- Integrity of an `mmv_master` state, as the allocator itself maintains
it: every code well formed; rows of one `(product_id, make)` share the
make segment; rows of one `(product_id, make, model)` share make and
model segments; one `(product_id, make, model, variant)` triple carries
one code. -/
def WF (s : MMVState) : Prop :=
  (∀ r ∈ s, codeWF r.ensuredit_id) ∧
  (∀ r ∈ s, ∀ r' ∈ s, r.product_id = r'.product_id → r.make = r'.make →
    seg1 r.ensuredit_id = seg1 r'.ensuredit_id) ∧
  (∀ r ∈ s, ∀ r' ∈ s, r.product_id = r'.product_id → r.make = r'.make →
    r.model = r'.model → seg2 r.ensuredit_id = seg2 r'.ensuredit_id) ∧
  (∀ r ∈ s, ∀ r' ∈ s, r.product_id = r'.product_id → r.make = r'.make →
    r.model = r'.model → r.variant = r'.variant →
    r.ensuredit_id = r'.ensuredit_id)

instance (s : MMVState) : Decidable (WF s) := by
  unfold WF
  infer_instance

/-- The spec's own description of the make-prefix scan, for comparison
with the implementation: "scan all composite codes for `product_id`
matching the scope's starting digit (convention: `'1'` for product 1,
`'4'` for product 2), take the numeric maximum of their first 3 digits,
add 1; if none exist, seed at a per-product base (101 or 401)".
Modelled from the spec's words, not from the source. -/
def specDescribedMakeId (s : MMVState) (p : Nat) : Nat :=
  let d : Char := if p = 1 then '1' else '4'
  let inScope := s.filter (fun r => r.product_id == p &&
    (match (strip r.ensuredit_id).data with
     | c :: _ => c == d
     | [] => false))
  match maxOfList (inScope.map (fun r => (pgCastNat (sqlSubstr (strip r.ensuredit_id) 1 3)).getD 0)) with
  | some m => m + 1
  | none => makeStart p

/-! ## Decimal rendering lemmas (`Nat.repr` on 1-3 digit numbers) -/

theorem toDigitsCore_succ (b fuel n : Nat) (ds : List Char) :
    Nat.toDigitsCore b (fuel + 1) n ds =
      if n / b = 0 then Nat.digitChar (n % b) :: ds
      else Nat.toDigitsCore b fuel (n / b) (Nat.digitChar (n % b) :: ds) := rfl

theorem tdcore_one (fuel n : Nat) (ds : List Char) (hf : 0 < fuel) (h : n ≤ 9) :
    Nat.toDigitsCore 10 fuel n ds = Nat.digitChar n :: ds := by
  obtain ⟨f, rfl⟩ : ∃ f, fuel = f + 1 := ⟨fuel - 1, by omega⟩
  rw [toDigitsCore_succ, Nat.div_eq_of_lt (by omega), Nat.mod_eq_of_lt (by omega)]
  simp

theorem tdcore_two (fuel n : Nat) (ds : List Char) (hf : 2 ≤ fuel) (h1 : 10 ≤ n) (h2 : n ≤ 99) :
    Nat.toDigitsCore 10 fuel n ds = Nat.digitChar (n / 10) :: Nat.digitChar (n % 10) :: ds := by
  obtain ⟨f, rfl⟩ : ∃ f, fuel = f + 1 := ⟨fuel - 1, by omega⟩
  rw [toDigitsCore_succ, if_neg (by omega : ¬ n / 10 = 0)]
  exact tdcore_one f (n / 10) _ (by omega) (by omega)

theorem tdcore_three (fuel n : Nat) (ds : List Char) (hf : 3 ≤ fuel) (h1 : 100 ≤ n) (h2 : n ≤ 999) :
    Nat.toDigitsCore 10 fuel n ds =
      Nat.digitChar (n / 100) :: Nat.digitChar (n / 10 % 10) :: Nat.digitChar (n % 10) :: ds := by
  obtain ⟨f, rfl⟩ : ∃ f, fuel = f + 1 := ⟨fuel - 1, by omega⟩
  rw [toDigitsCore_succ, if_neg (by omega : ¬ n / 10 = 0)]
  rw [tdcore_two f (n / 10) _ (by omega) (by omega) (by omega)]
  rw [Nat.div_div_eq_div_mul]

theorem repr_data_one (n : Nat) (h : n ≤ 9) :
    (Nat.repr n).data = [Nat.digitChar n] := by
  show (Nat.toDigits 10 n).asString.data = _
  unfold Nat.toDigits
  rw [tdcore_one (n + 1) n [] (by omega) h]
  rfl

theorem repr_data_two (n : Nat) (h1 : 10 ≤ n) (h2 : n ≤ 99) :
    (Nat.repr n).data = [Nat.digitChar (n / 10), Nat.digitChar (n % 10)] := by
  show (Nat.toDigits 10 n).asString.data = _
  unfold Nat.toDigits
  rw [tdcore_two (n + 1) n [] (by omega) h1 h2]
  rfl

theorem repr_data_three (n : Nat) (h1 : 100 ≤ n) (h2 : n ≤ 999) :
    (Nat.repr n).data =
      [Nat.digitChar (n / 100), Nat.digitChar (n / 10 % 10), Nat.digitChar (n % 10)] := by
  show (Nat.toDigits 10 n).asString.data = _
  unfold Nat.toDigits
  rw [tdcore_three (n + 1) n [] (by omega) h1 h2]
  rfl

theorem toString_nat (n : Nat) : toString n = Nat.repr n := rfl

theorem digitChar_toNat (d : Nat) (h : d ≤ 9) : (Nat.digitChar d).toNat = 48 + d := by
  interval_cases d <;> rfl

theorem digitChar_isDigit (d : Nat) (h : d ≤ 9) : (Nat.digitChar d).isDigit = true := by
  interval_cases d <;> rfl

theorem digitChar_inj (d e : Nat) (hd : d ≤ 9) (he : e ≤ 9)
    (h : Nat.digitChar d = Nat.digitChar e) : d = e := by
  have := digitChar_toNat d hd
  rw [h, digitChar_toNat e he] at this
  omega

theorem digitsVal_one (a : Nat) (ha : a ≤ 9) :
    digitsVal [Nat.digitChar a] = a := by
  simp only [digitsVal, List.foldl]
  rw [digitChar_toNat a ha]
  omega

theorem digitsVal_two (a b : Nat) (ha : a ≤ 9) (hb : b ≤ 9) :
    digitsVal [Nat.digitChar a, Nat.digitChar b] = 10 * a + b := by
  simp only [digitsVal, List.foldl]
  rw [digitChar_toNat a ha, digitChar_toNat b hb]
  omega

theorem digitsVal_three (a b c : Nat) (ha : a ≤ 9) (hb : b ≤ 9) (hc : c ≤ 9) :
    digitsVal [Nat.digitChar a, Nat.digitChar b, Nat.digitChar c] = 100 * a + 10 * b + c := by
  simp only [digitsVal, List.foldl]
  rw [digitChar_toNat a ha, digitChar_toNat b hb, digitChar_toNat c hc]
  omega

theorem pad2_data (vt : Nat) (h : vt ≤ 99) :
    (pad2 vt).data = [Nat.digitChar (vt / 10), Nat.digitChar (vt % 10)] := by
  unfold pad2
  by_cases hv : vt < 10
  · rw [if_pos hv]
    have : ("0" ++ toString vt).data = '0' :: (toString vt).data := rfl
    rw [this, toString_nat, repr_data_one vt (by omega)]
    rw [Nat.div_eq_of_lt hv, Nat.mod_eq_of_lt hv]
    rfl
  · rw [if_neg hv, toString_nat, repr_data_two vt (by omega) h]

/-! ## Composite-code shape lemmas -/

theorem mkCode_data (mk md vt : Nat) (h1 : 100 ≤ mk) (h2 : mk ≤ 999)
    (h3 : 100 ≤ md) (h4 : md ≤ 999) (h5 : vt ≤ 99) :
    (mkCompositeCode mk md vt).data =
      [Nat.digitChar (mk / 100), Nat.digitChar (mk / 10 % 10), Nat.digitChar (mk % 10),
       Nat.digitChar (md / 100), Nat.digitChar (md / 10 % 10), Nat.digitChar (md % 10),
       Nat.digitChar (vt / 10), Nat.digitChar (vt % 10)] := by
  unfold mkCompositeCode
  have hap : ∀ s t : String, (s ++ t).data = s.data ++ t.data := fun _ _ => rfl
  rw [hap, hap, toString_nat, toString_nat, repr_data_three mk h1 h2,
    repr_data_three md h3 h4, pad2_data vt h5]
  rfl

theorem seg1_mkCode (mk md vt : Nat) (h1 : 100 ≤ mk) (h2 : mk ≤ 999)
    (h3 : 100 ≤ md) (h4 : md ≤ 999) (h5 : vt ≤ 99) :
    seg1 (mkCompositeCode mk md vt) = mk := by
  unfold seg1
  rw [mkCode_data mk md vt h1 h2 h3 h4 h5]
  show digitsVal [Nat.digitChar (mk / 100), Nat.digitChar (mk / 10 % 10), Nat.digitChar (mk % 10)] = mk
  rw [digitsVal_three _ _ _ (by omega) (by omega) (by omega)]
  omega

theorem seg2_mkCode (mk md vt : Nat) (h1 : 100 ≤ mk) (h2 : mk ≤ 999)
    (h3 : 100 ≤ md) (h4 : md ≤ 999) (h5 : vt ≤ 99) :
    seg2 (mkCompositeCode mk md vt) = md := by
  unfold seg2
  rw [mkCode_data mk md vt h1 h2 h3 h4 h5]
  show digitsVal [Nat.digitChar (md / 100), Nat.digitChar (md / 10 % 10), Nat.digitChar (md % 10)] = md
  rw [digitsVal_three _ _ _ (by omega) (by omega) (by omega)]
  omega

theorem seg3_mkCode (mk md vt : Nat) (h1 : 100 ≤ mk) (h2 : mk ≤ 999)
    (h3 : 100 ≤ md) (h4 : md ≤ 999) (h5 : vt ≤ 99) :
    seg3 (mkCompositeCode mk md vt) = vt := by
  unfold seg3
  rw [mkCode_data mk md vt h1 h2 h3 h4 h5]
  show digitsVal [Nat.digitChar (vt / 10), Nat.digitChar (vt % 10)] = vt
  rw [digitsVal_two _ _ (by omega) (by omega)]
  omega

theorem codeWF_mkCode (mk md vt : Nat) (h1 : 101 ≤ mk) (h2 : mk ≤ 999)
    (h3 : 101 ≤ md) (h4 : md ≤ 999) (h5 : 1 ≤ vt) (h6 : vt ≤ 99) :
    codeWF (mkCompositeCode mk md vt) := by
  have e1 := seg1_mkCode mk md vt (by omega) h2 (by omega) h4 h6
  have e2 := seg2_mkCode mk md vt (by omega) h2 (by omega) h4 h6
  have e3 := seg3_mkCode mk md vt (by omega) h2 (by omega) h4 h6
  rw [codeWF, e1, e2, e3]
  exact ⟨rfl, h1, h2, h3, h4, h5, h6⟩

theorem mkCode_inj (mk md vt mk' md' vt' : Nat)
    (h1 : 100 ≤ mk) (h2 : mk ≤ 999) (h3 : 100 ≤ md) (h4 : md ≤ 999) (h5 : vt ≤ 99)
    (h1' : 100 ≤ mk') (h2' : mk' ≤ 999) (h3' : 100 ≤ md') (h4' : md' ≤ 999) (h5' : vt' ≤ 99)
    (h : mkCompositeCode mk md vt = mkCompositeCode mk' md' vt') :
    mk = mk' ∧ md = md' ∧ vt = vt' := by
  refine ⟨?_, ?_, ?_⟩
  · rw [← seg1_mkCode mk md vt h1 h2 h3 h4 h5, h, seg1_mkCode mk' md' vt' h1' h2' h3' h4' h5']
  · rw [← seg2_mkCode mk md vt h1 h2 h3 h4 h5, h, seg2_mkCode mk' md' vt' h1' h2' h3' h4' h5']
  · rw [← seg3_mkCode mk md vt h1 h2 h3 h4 h5, h, seg3_mkCode mk' md' vt' h1' h2' h3' h4' h5']

theorem mkCode_all_digits (mk md vt : Nat) (h1 : 100 ≤ mk) (h2 : mk ≤ 999)
    (h3 : 100 ≤ md) (h4 : md ≤ 999) (h5 : vt ≤ 99) :
    (mkCompositeCode mk md vt).data.all Char.isDigit = true := by
  rw [mkCode_data mk md vt h1 h2 h3 h4 h5]
  simp only [List.all_cons, List.all_nil, Bool.and_true, Bool.and_eq_true]
  refine ⟨?_, ?_, ?_, ?_, ?_, ?_, ?_, ?_⟩ <;> exact digitChar_isDigit _ (by omega)

theorem digit_not_space (c : Char) (h : c.isDigit = true) : pyIsSpace c = false := by
  unfold pyIsSpace
  by_cases h1 : c = ' '
  · subst h1; exact absurd h (by decide)
  by_cases h2 : c = '\t'
  · subst h2; exact absurd h (by decide)
  by_cases h3 : c = '\n'
  · subst h3; exact absurd h (by decide)
  by_cases h4 : c = '\r'
  · subst h4; exact absurd h (by decide)
  simp [beq_iff_eq, h1, h2, h3, h4]

theorem stripData_digits (l : List Char) (h : l.all Char.isDigit = true) :
    stripData l = l := by
  unfold stripData
  have hall : ∀ c ∈ l, c.isDigit = true := by
    intro c hc
    exact List.all_eq_true.mp h c hc
  have h1 : l.dropWhile pyIsSpace = l := by
    cases l with
    | nil => rfl
    | cons a t =>
      rw [List.dropWhile_cons, if_neg]
      rw [digit_not_space a (hall a (List.mem_cons_self a t))]
      simp
  rw [h1]
  have h2 : l.reverse.dropWhile pyIsSpace = l.reverse := by
    cases hr : l.reverse with
    | nil => rfl
    | cons a t =>
      rw [List.dropWhile_cons, if_neg]
      have ha : a ∈ l := by
        rw [← List.mem_reverse, hr]
        exact List.mem_cons_self a t
      rw [digit_not_space a (hall a ha)]
      simp
  rw [h2, List.reverse_reverse]

theorem strip_of_digits (s : String) (h : s.data.all Char.isDigit = true) :
    strip s = s := by
  unfold strip
  rw [stripData_digits s.data h]

theorem pgCastNat_of_digits (s : String) (hne : s.data ≠ [])
    (h : s.data.all Char.isDigit = true) :
    pgCastNat s = some (digitsVal s.data) := by
  unfold pgCastNat
  rw [stripData_digits s.data h]
  simp only [h, Bool.and_true]
  rw [if_pos]
  simp [List.isEmpty_iff, hne]

theorem pyInt_repr3 (n : Nat) (h1 : 100 ≤ n) (h2 : n ≤ 999) :
    pyInt (Nat.repr n) = some n := by
  unfold pyInt
  rw [pgCastNat_of_digits]
  · rw [repr_data_three n h1 h2,
      digitsVal_three _ _ _ (by omega) (by omega) (by omega)]
    congr 1
    omega
  · rw [repr_data_three n h1 h2]; simp
  · rw [repr_data_three n h1 h2]
    simp only [List.all_cons, List.all_nil, Bool.and_true, Bool.and_eq_true]
    exact ⟨digitChar_isDigit _ (by omega), digitChar_isDigit _ (by omega),
      digitChar_isDigit _ (by omega)⟩

theorem pyInt_pad2 (vt : Nat) (h : vt ≤ 99) :
    pyInt (pad2 vt) = some vt := by
  unfold pyInt
  rw [pgCastNat_of_digits]
  · rw [pad2_data vt h, digitsVal_two _ _ (by omega) (by omega)]
    congr 1
    omega
  · rw [pad2_data vt h]; simp
  · rw [pad2_data vt h]
    simp only [List.all_cons, List.all_nil, Bool.and_true, Bool.and_eq_true]
    exact ⟨digitChar_isDigit _ (by omega), digitChar_isDigit _ (by omega)⟩

theorem codeWF_data (c : String) (hc : codeWF c) :
    c.data = [Nat.digitChar (seg1 c / 100), Nat.digitChar (seg1 c / 10 % 10),
      Nat.digitChar (seg1 c % 10), Nat.digitChar (seg2 c / 100),
      Nat.digitChar (seg2 c / 10 % 10), Nat.digitChar (seg2 c % 10),
      Nat.digitChar (seg3 c / 10), Nat.digitChar (seg3 c % 10)] := by
  obtain ⟨hcode, h1, h2, h3, h4, h5, h6⟩ := hc
  have := congrArg String.data hcode
  rw [this, mkCode_data _ _ _ (by omega) h2 (by omega) h4 h6]

theorem codeWF_all_digits (c : String) (hc : codeWF c) :
    c.data.all Char.isDigit = true := by
  obtain ⟨hcode, h1, h2, h3, h4, h5, h6⟩ := hc
  rw [hcode]
  exact mkCode_all_digits _ _ _ (by omega) h2 (by omega) h4 h6

theorem strip_codeWF (c : String) (hc : codeWF c) : strip c = c :=
  strip_of_digits c (codeWF_all_digits c hc)

theorem numHead_codeWF (c : String) (hc : codeWF c) : numHead c = true := by
  obtain ⟨hcode, h1, h2, h3, h4, h5, h6⟩ := id hc
  unfold numHead
  rw [codeWF_data c hc]
  exact digitChar_isDigit _ (by omega)

/-- The integer cast of digits 1-3 of a well-formed (trimmed) code. -/
theorem cast13_codeWF (c : String) (hc : codeWF c) :
    pgCastNat (sqlSubstr (strip c) 1 3) = some (seg1 c) := by
  obtain ⟨hcode, h1, h2, h3, h4, h5, h6⟩ := id hc
  rw [strip_codeWF c hc]
  have hs : sqlSubstr c 1 3 = (⟨c.data.take 3⟩ : String) := rfl
  rw [hs, pgCastNat_of_digits]
  · rfl
  · rw [codeWF_data c hc]; simp
  · rw [codeWF_data c hc]
    simp only [List.take, List.all_cons, List.all_nil, Bool.and_true, Bool.and_eq_true]
    exact ⟨digitChar_isDigit _ (by omega), digitChar_isDigit _ (by omega),
      digitChar_isDigit _ (by omega)⟩

/-- The integer cast of digits 4-6 of a well-formed (trimmed) code. -/
theorem cast46_codeWF (c : String) (hc : codeWF c) :
    pgCastNat (sqlSubstr (strip c) 4 3) = some (seg2 c) := by
  obtain ⟨hcode, h1, h2, h3, h4, h5, h6⟩ := id hc
  rw [strip_codeWF c hc]
  have hs : sqlSubstr c 4 3 = (⟨(c.data.drop 3).take 3⟩ : String) := rfl
  rw [hs, pgCastNat_of_digits]
  · rfl
  · rw [codeWF_data c hc]; simp
  · rw [codeWF_data c hc]
    simp only [List.drop, List.take, List.all_cons, List.all_nil, Bool.and_true,
      Bool.and_eq_true]
    exact ⟨digitChar_isDigit _ (by omega), digitChar_isDigit _ (by omega),
      digitChar_isDigit _ (by omega)⟩

/-- The integer cast of digits 7-8 of a well-formed (trimmed) code. -/
theorem cast78_codeWF (c : String) (hc : codeWF c) :
    pgCastNat (sqlSubstr (strip c) 7 2) = some (seg3 c) := by
  obtain ⟨hcode, h1, h2, h3, h4, h5, h6⟩ := id hc
  rw [strip_codeWF c hc]
  have hs : sqlSubstr c 7 2 = (⟨(c.data.drop 6).take 2⟩ : String) := rfl
  rw [hs, pgCastNat_of_digits]
  · rfl
  · rw [codeWF_data c hc]; simp
  · rw [codeWF_data c hc]
    simp only [List.drop, List.take, List.all_cons, List.all_nil, Bool.and_true,
      Bool.and_eq_true]
    exact ⟨digitChar_isDigit _ (by omega), digitChar_isDigit _ (by omega)⟩

/-- `LIKE '{x}%'` on a well-formed code holds exactly when `x` is its make
segment. -/
theorem likeMatch_repr3 (x : Nat) (c : String) (hx1 : 100 ≤ x) (hx2 : x ≤ 999)
    (hc : codeWF c) : likeMatch (toString x) (strip c) = true ↔ x = seg1 c := by
  rw [strip_codeWF c hc]
  obtain ⟨hcode, h1, h2, h3, h4, h5, h6⟩ := hc
  unfold likeMatch
  rw [toString_nat, repr_data_three x hx1 hx2, codeWF_data c ⟨hcode, h1, h2, h3, h4, h5, h6⟩]
  simp only [List.isPrefixOf, Bool.and_eq_true, Bool.and_true, beq_iff_eq]
  constructor
  · rintro ⟨e0, e1, e2⟩
    have d0 := digitChar_inj _ _ (by omega) (by omega) e0
    have d1 := digitChar_inj _ _ (by omega) (by omega) e1
    have d2 := digitChar_inj _ _ (by omega) (by omega) e2
    omega
  · intro h
    simp [h]

/-- `LIKE '{x}{y}%'` on a well-formed code holds exactly when `x` and `y`
are its make and model segments. -/
theorem likeMatch_repr6 (x y : Nat) (c : String) (hx1 : 100 ≤ x) (hx2 : x ≤ 999)
    (hy1 : 100 ≤ y) (hy2 : y ≤ 999) (hc : codeWF c) :
    likeMatch (toString x ++ toString y) (strip c) = true ↔
      (x = seg1 c ∧ y = seg2 c) := by
  rw [strip_codeWF c hc]
  obtain ⟨hcode, h1, h2, h3, h4, h5, h6⟩ := hc
  unfold likeMatch
  have hap : (toString x ++ toString y).data = (toString x).data ++ (toString y).data := rfl
  rw [hap, toString_nat, toString_nat, repr_data_three x hx1 hx2, repr_data_three y hy1 hy2,
    codeWF_data c ⟨hcode, h1, h2, h3, h4, h5, h6⟩]
  simp only [List.cons_append, List.nil_append, List.isPrefixOf, Bool.and_eq_true,
    Bool.and_true, beq_iff_eq]
  constructor
  · rintro ⟨e0, e1, e2, e3, e4, e5⟩
    have d0 := digitChar_inj _ _ (by omega) (by omega) e0
    have d1 := digitChar_inj _ _ (by omega) (by omega) e1
    have d2 := digitChar_inj _ _ (by omega) (by omega) e2
    have d3 := digitChar_inj _ _ (by omega) (by omega) e3
    have d4 := digitChar_inj _ _ (by omega) (by omega) e4
    have d5 := digitChar_inj _ _ (by omega) (by omega) e5
    omega
  · rintro ⟨hx, hy⟩
    simp [hx, hy]

/-! ## List helper lemmas -/

theorem le_foldl_max_init (l : List Nat) (a : Nat) : a ≤ l.foldl Nat.max a := by
  induction l generalizing a with
  | nil => exact Nat.le_refl a
  | cons b t ih =>
    exact Nat.le_trans (Nat.le_max_left a b) (ih (Nat.max a b))

theorem le_foldl_max_mem (l : List Nat) : ∀ (a x : Nat), x ∈ l → x ≤ l.foldl Nat.max a := by
  induction l with
  | nil => intro a x h; cases h
  | cons b t ih =>
    intro a x h
    rcases List.mem_cons.mp h with rfl | hx
    · exact Nat.le_trans (Nat.le_max_right a x) (le_foldl_max_init t (Nat.max a x))
    · exact ih (Nat.max a b) x hx

theorem foldl_max_mem_cons (l : List Nat) (a : Nat) : l.foldl Nat.max a ∈ a :: l := by
  induction l generalizing a with
  | nil => exact List.mem_singleton.mpr rfl
  | cons b t ih =>
    have hm := ih (Nat.max a b)
    rcases List.mem_cons.mp hm with he | ht
    · rw [List.foldl_cons, he]
      rcases Nat.le_total a b with hab | hab
      · have hx : a.max b = b := Nat.max_eq_right hab
        rw [hx]
        exact List.mem_cons_of_mem _ (List.mem_cons_self _ _)
      · have hx : a.max b = a := Nat.max_eq_left hab
        rw [hx]
        exact List.mem_cons_self _ _
    · exact List.mem_cons_of_mem _ (List.mem_cons_of_mem _ ht)

theorem maxOfList_ge (l : List Nat) (x m : Nat) (hx : x ∈ l)
    (hm : maxOfList l = some m) : x ≤ m := by
  cases l with
  | nil => cases hx
  | cons a t =>
    have hm' : t.foldl Nat.max a = m := by
      simpa [maxOfList] using hm
    rcases List.mem_cons.mp hx with rfl | hx'
    · rw [← hm']; exact le_foldl_max_init t x
    · rw [← hm']; exact le_foldl_max_mem t a x hx'

theorem maxOfList_mem (l : List Nat) (m : Nat) (hm : maxOfList l = some m) :
    m ∈ l := by
  cases l with
  | nil => cases hm
  | cons a t =>
    have hm' : t.foldl Nat.max a = m := by
      simpa [maxOfList] using hm
    rw [← hm']
    exact foldl_max_mem_cons t a

theorem seqOpts_of_all_some {α : Type} (l : List α) (f : α → Option Nat) (g : α → Nat)
    (h : ∀ x ∈ l, f x = some (g x)) : seqOpts (l.map f) = some (l.map g) := by
  induction l with
  | nil => rfl
  | cons a t ih =>
    rw [List.map_cons, List.map_cons]
    rw [h a (List.mem_cons_self a t)]
    show (seqOpts (t.map f)).map (g a :: ·) = some (g a :: t.map g)
    rw [ih (fun x hx => h x (List.mem_cons_of_mem a hx))]
    rfl

theorem head?_filter {α : Type} (p : α → Bool) (l : List α) (x : α)
    (h : (l.filter p).head? = some x) : x ∈ l ∧ p x = true := by
  cases hf : l.filter p with
  | nil => rw [hf] at h; cases h
  | cons a t =>
    rw [hf] at h
    have hax : a = x := by simpa using h
    subst hax
    have ha : a ∈ l.filter p := by
      rw [hf]; exact List.mem_cons_self a t
    exact ⟨List.mem_of_mem_filter ha, List.of_mem_filter ha⟩

theorem filter_head?_isSome {α : Type} (p : α → Bool) (l : List α) (r : α)
    (hr : r ∈ l) (hp : p r = true) : ∃ x, (l.filter p).head? = some x := by
  have : r ∈ l.filter p := List.mem_filter.mpr ⟨hr, hp⟩
  cases hf : l.filter p with
  | nil => rw [hf] at this; cases this
  | cons a t => exact ⟨a, by simp [hf]⟩

/-! ## Characterisation of the allocator's scan queries under integrity -/

theorem makeStart_ge (p : Nat) : 101 ≤ makeStart p := by
  unfold makeStart
  split <;> omega

theorem maxOfList_eq_none (l : List Nat) : maxOfList l = none ↔ l = [] := by
  cases l <;> simp [maxOfList]

/-- Under integrity the make-max scan never errors: it is the maximum of
the make segments of the product scope. -/
theorem makeMax_char (s : MMVState) (p : Nat)
    (hwf1 : ∀ r ∈ s, codeWF r.ensuredit_id) :
    mmvMakeMax s p =
      some (maxOfList ((s.filter (fun r => r.product_id == p)).map
        (fun r => seg1 r.ensuredit_id))) := by
  unfold mmvMakeMax
  have hfe : s.filter (fun r => r.product_id == p && numHead (strip r.ensuredit_id)) =
      s.filter (fun r => r.product_id == p) := by
    apply List.filter_congr
    intro r hr
    rw [strip_codeWF _ (hwf1 r hr), numHead_codeWF _ (hwf1 r hr), Bool.and_true]
  rw [hfe]
  rw [seqOpts_of_all_some _ _ (fun r => seg1 r.ensuredit_id)
    (fun r hr => cast13_codeWF _ (hwf1 r (List.mem_of_mem_filter hr)))]

/-- The `current_max` value of the make branch is at least 100 and bounds
every make segment of the scope. -/
theorem currentMaxMake_bounds (s : MMVState) (p : Nat)
    (hwf1 : ∀ r ∈ s, codeWF r.ensuredit_id) :
    100 ≤ pyMaxFallback (mmvMakeMax s p) (makeStart p - 1) ∧
    (∀ r ∈ s, r.product_id = p →
      seg1 r.ensuredit_id ≤ pyMaxFallback (mmvMakeMax s p) (makeStart p - 1)) := by
  rw [makeMax_char s p hwf1]
  cases hmm : maxOfList ((s.filter (fun r => r.product_id == p)).map
      (fun r => seg1 r.ensuredit_id)) with
  | none =>
    have hnil := (maxOfList_eq_none _).mp hmm
    have hfnil : s.filter (fun r => r.product_id == p) = [] :=
      List.map_eq_nil_iff.mp hnil
    constructor
    · show 100 ≤ pyMaxFallback (some none) (makeStart p - 1)
      have := makeStart_ge p
      simp only [pyMaxFallback]
      omega
    · intro r hr hp
      have : r ∈ s.filter (fun r => r.product_id == p) :=
        List.mem_filter.mpr ⟨hr, by simp [hp]⟩
      rw [hfnil] at this
      cases this
  | some M =>
    have hMmem := maxOfList_mem _ _ hmm
    obtain ⟨r1, hr1f, hr1e⟩ := List.mem_map.mp hMmem
    have hr1s := List.mem_of_mem_filter hr1f
    obtain ⟨-, hg1, hg2, -, -, -, -⟩ := hwf1 r1 hr1s
    have hM101 : 101 ≤ M := by omega
    have hfall : pyMaxFallback (some (some M)) (makeStart p - 1) = M := by
      simp only [pyMaxFallback]
      rw [if_neg (by omega)]
    rw [hfall]
    constructor
    · omega
    · intro r hr hp
      have hmem : seg1 r.ensuredit_id ∈ (s.filter (fun r => r.product_id == p)).map
          (fun r => seg1 r.ensuredit_id) :=
        List.mem_map.mpr ⟨r, List.mem_filter.mpr ⟨hr, by simp [hp]⟩, rfl⟩
      exact maxOfList_ge _ _ _ hmem hmm

/-- When no row of the product scope carries make segment `x`, the model
scan `LIKE '{x}%'` finds nothing. -/
theorem segMax43_none (s : MMVState) (p x : Nat)
    (hwf1 : ∀ r ∈ s, codeWF r.ensuredit_id) (hx1 : 100 ≤ x) (hx2 : x ≤ 999)
    (hnone : ∀ r ∈ s, r.product_id = p → seg1 r.ensuredit_id ≠ x) :
    mmvSegMax s p (toString x) 4 3 = some none := by
  unfold mmvSegMax
  have hfe : s.filter (fun r => r.product_id == p && likeMatch (toString x) (strip r.ensuredit_id)) = [] := by
    rw [List.filter_eq_nil_iff]
    intro r hr
    rw [Bool.and_eq_true]
    rintro ⟨hpid, hlike⟩
    have hp : r.product_id = p := by simpa using hpid
    have := (likeMatch_repr3 x _ hx1 hx2 (hwf1 r hr)).mp hlike
    exact hnone r hr hp this.symm
  rw [hfe]
  rfl

/-- When some row of the product scope carries make segment `x`, the
model scan `LIKE '{x}%'` returns the maximum model segment of exactly
those rows. -/
theorem segMax43_some (s : MMVState) (p x : Nat)
    (hwf1 : ∀ r ∈ s, codeWF r.ensuredit_id) (hx1 : 100 ≤ x) (hx2 : x ≤ 999)
    (r0 : MMVRow) (hr0 : r0 ∈ s) (hp0 : r0.product_id = p)
    (hs0 : seg1 r0.ensuredit_id = x) :
    ∃ M, mmvSegMax s p (toString x) 4 3 = some (some M) ∧ 101 ≤ M ∧ M ≤ 999 ∧
      (∀ r ∈ s, r.product_id = p → seg1 r.ensuredit_id = x →
        seg2 r.ensuredit_id ≤ M) ∧
      (∃ r1, r1 ∈ s ∧ r1.product_id = p ∧ seg1 r1.ensuredit_id = x ∧
        seg2 r1.ensuredit_id = M) := by
  unfold mmvSegMax
  have hmem : ∀ r ∈ s, (r.product_id == p && likeMatch (toString x) (strip r.ensuredit_id)) = true ↔
      (r.product_id = p ∧ seg1 r.ensuredit_id = x) := by
    intro r hr
    rw [Bool.and_eq_true]
    constructor
    · rintro ⟨hpid, hlike⟩
      exact ⟨by simpa using hpid, ((likeMatch_repr3 x _ hx1 hx2 (hwf1 r hr)).mp hlike).symm⟩
    · rintro ⟨hp, hseg⟩
      exact ⟨by simp [hp], (likeMatch_repr3 x _ hx1 hx2 (hwf1 r hr)).mpr hseg.symm⟩
  set L := s.filter (fun r => r.product_id == p && likeMatch (toString x) (strip r.ensuredit_id)) with hL
  have hr0L : r0 ∈ L := List.mem_filter.mpr ⟨hr0, (hmem r0 hr0).mpr ⟨hp0, hs0⟩⟩
  have hseq : seqOpts (L.map (fun r => pgCastNat (sqlSubstr (strip r.ensuredit_id) 4 3))) =
      some (L.map (fun r => seg2 r.ensuredit_id)) :=
    seqOpts_of_all_some _ _ _
      (fun r hr => cast46_codeWF _ (hwf1 r (List.mem_of_mem_filter hr)))
  rw [hseq]
  obtain ⟨M, hM⟩ : ∃ M, maxOfList (L.map (fun r => seg2 r.ensuredit_id)) = some M := by
    rcases hLc : L with _ | ⟨a, t⟩
    · rw [hLc] at hr0L
      cases hr0L
    · exact ⟨_, rfl⟩
  refine ⟨M, ?_, ?_, ?_, ?_, ?_⟩
  · show some (maxOfList (L.map (fun r => seg2 r.ensuredit_id))) = some (some M)
    rw [hM]
  · obtain ⟨r1, hr1L, hr1e⟩ := List.mem_map.mp (maxOfList_mem _ _ hM)
    obtain ⟨-, -, -, hg3, -, -, -⟩ := hwf1 r1 (List.mem_of_mem_filter hr1L)
    omega
  · obtain ⟨r1, hr1L, hr1e⟩ := List.mem_map.mp (maxOfList_mem _ _ hM)
    obtain ⟨-, -, -, -, hg4, -, -⟩ := hwf1 r1 (List.mem_of_mem_filter hr1L)
    omega
  · intro r hr hp hseg
    exact maxOfList_ge _ _ _
      (List.mem_map.mpr ⟨r, List.mem_filter.mpr ⟨hr, (hmem r hr).mpr ⟨hp, hseg⟩⟩, rfl⟩) hM
  · obtain ⟨r1, hr1L, hr1e⟩ := List.mem_map.mp (maxOfList_mem _ _ hM)
    rw [hL] at hr1L
    have hr1s := List.mem_of_mem_filter hr1L
    obtain ⟨hp1, hseg1⟩ := (hmem r1 hr1s).mp (List.mem_filter.mp hr1L).2
    exact ⟨r1, hr1s, hp1, hseg1, hr1e⟩

/-- When no row of the product scope carries make segment `x` and model
segment `y`, the variant scan `LIKE '{x}{y}%'` finds nothing. -/
theorem segMax72_none (s : MMVState) (p x y : Nat)
    (hwf1 : ∀ r ∈ s, codeWF r.ensuredit_id) (hx1 : 100 ≤ x) (hx2 : x ≤ 999)
    (hy1 : 100 ≤ y) (hy2 : y ≤ 999)
    (hnone : ∀ r ∈ s, r.product_id = p →
      ¬(seg1 r.ensuredit_id = x ∧ seg2 r.ensuredit_id = y)) :
    mmvSegMax s p (toString x ++ toString y) 7 2 = some none := by
  unfold mmvSegMax
  have hfe : s.filter (fun r => r.product_id == p &&
      likeMatch (toString x ++ toString y) (strip r.ensuredit_id)) = [] := by
    rw [List.filter_eq_nil_iff]
    intro r hr
    rw [Bool.and_eq_true]
    rintro ⟨hpid, hlike⟩
    have hp : r.product_id = p := by simpa using hpid
    obtain ⟨hu, hv⟩ := (likeMatch_repr6 x y _ hx1 hx2 hy1 hy2 (hwf1 r hr)).mp hlike
    exact hnone r hr hp ⟨hu.symm, hv.symm⟩
  rw [hfe]
  rfl

/-- When some row of the product scope carries make segment `x` and model
segment `y`, the variant scan `LIKE '{x}{y}%'` returns the maximum
variant segment of exactly those rows. -/
theorem segMax72_some (s : MMVState) (p x y : Nat)
    (hwf1 : ∀ r ∈ s, codeWF r.ensuredit_id) (hx1 : 100 ≤ x) (hx2 : x ≤ 999)
    (hy1 : 100 ≤ y) (hy2 : y ≤ 999)
    (r0 : MMVRow) (hr0 : r0 ∈ s) (hp0 : r0.product_id = p)
    (hs0 : seg1 r0.ensuredit_id = x) (ht0 : seg2 r0.ensuredit_id = y) :
    ∃ M, mmvSegMax s p (toString x ++ toString y) 7 2 = some (some M) ∧
      1 ≤ M ∧ M ≤ 99 ∧
      (∀ r ∈ s, r.product_id = p → seg1 r.ensuredit_id = x →
        seg2 r.ensuredit_id = y → seg3 r.ensuredit_id ≤ M) := by
  unfold mmvSegMax
  have hmem : ∀ r ∈ s, (r.product_id == p &&
      likeMatch (toString x ++ toString y) (strip r.ensuredit_id)) = true ↔
      (r.product_id = p ∧ seg1 r.ensuredit_id = x ∧ seg2 r.ensuredit_id = y) := by
    intro r hr
    rw [Bool.and_eq_true]
    constructor
    · rintro ⟨hpid, hlike⟩
      obtain ⟨hu, hv⟩ := (likeMatch_repr6 x y _ hx1 hx2 hy1 hy2 (hwf1 r hr)).mp hlike
      exact ⟨by simpa using hpid, hu.symm, hv.symm⟩
    · rintro ⟨hp, hseg, hseg2⟩
      exact ⟨by simp [hp],
        (likeMatch_repr6 x y _ hx1 hx2 hy1 hy2 (hwf1 r hr)).mpr ⟨hseg.symm, hseg2.symm⟩⟩
  set L := s.filter (fun r => r.product_id == p &&
    likeMatch (toString x ++ toString y) (strip r.ensuredit_id)) with hL
  have hr0L : r0 ∈ L := List.mem_filter.mpr ⟨hr0, (hmem r0 hr0).mpr ⟨hp0, hs0, ht0⟩⟩
  have hseq : seqOpts (L.map (fun r => pgCastNat (sqlSubstr (strip r.ensuredit_id) 7 2))) =
      some (L.map (fun r => seg3 r.ensuredit_id)) :=
    seqOpts_of_all_some _ _ _
      (fun r hr => cast78_codeWF _ (hwf1 r (List.mem_of_mem_filter hr)))
  rw [hseq]
  obtain ⟨M, hM⟩ : ∃ M, maxOfList (L.map (fun r => seg3 r.ensuredit_id)) = some M := by
    rcases hLc : L with _ | ⟨a, t⟩
    · rw [hLc] at hr0L
      cases hr0L
    · exact ⟨_, rfl⟩
  refine ⟨M, ?_, ?_, ?_, ?_⟩
  · show some (maxOfList (L.map (fun r => seg3 r.ensuredit_id))) = some (some M)
    rw [hM]
  · obtain ⟨r1, hr1L, hr1e⟩ := List.mem_map.mp (maxOfList_mem _ _ hM)
    obtain ⟨-, -, -, -, -, hg5, -⟩ := hwf1 r1 (List.mem_of_mem_filter hr1L)
    omega
  · obtain ⟨r1, hr1L, hr1e⟩ := List.mem_map.mp (maxOfList_mem _ _ hM)
    obtain ⟨-, -, -, -, -, -, hg6⟩ := hwf1 r1 (List.mem_of_mem_filter hr1L)
    omega
  · intro r hr hp hseg hseg2
    exact maxOfList_ge _ _ _
      (List.mem_map.mpr ⟨r, List.mem_filter.mpr ⟨hr, (hmem r hr).mpr ⟨hp, hseg, hseg2⟩⟩, rfl⟩) hM

/-! ## Branch evaluation of the allocator -/

theorem str_ext (a b : String) (h : a.data = b.data) : a = b :=
  String.ext h

theorem makeIdOpt_head (s : MMVState) (p : Nat) (m : String) (r1 : MMVRow)
    (h : (s.filter (fun r => r.make == m && r.product_id == p)).head? = some r1) :
    makeIdOpt s p m =
      (if sqlSubstr r1.ensuredit_id 1 3 = ""
       then some (pyMaxFallback (mmvMakeMax s p) (makeStart p - 1) + 1)
       else pyInt (sqlSubstr r1.ensuredit_id 1 3)) := by
  unfold makeIdOpt
  rw [h]
  rfl

theorem makeIdOpt_fresh (s : MMVState) (p : Nat) (m : String)
    (hn : ∀ r ∈ s, ¬(r.product_id = p ∧ r.make = m)) :
    makeIdOpt s p m = some (pyMaxFallback (mmvMakeMax s p) (makeStart p - 1) + 1) := by
  unfold makeIdOpt
  have hfe : s.filter (fun r => r.make == m && r.product_id == p) = [] := by
    rw [List.filter_eq_nil_iff]
    intro r hr
    rw [Bool.and_eq_true]
    rintro ⟨h1, h2⟩
    exact hn r hr ⟨by simpa using h2, by simpa using h1⟩
  rw [hfe]
  rfl

theorem makeIdOpt_exists (s : MMVState) (p : Nat) (m : String) (hwf : WF s)
    (r : MMVRow) (hr : r ∈ s) (hp : r.product_id = p) (hm : r.make = m) :
    makeIdOpt s p m = some (seg1 r.ensuredit_id) := by
  obtain ⟨hwf1, hwf2, hwf3, hwf4⟩ := hwf
  obtain ⟨r1, hr1⟩ := filter_head?_isSome (fun r => r.make == m && r.product_id == p)
    s r hr (by simp [hm, hp])
  rw [makeIdOpt_head s p m r1 hr1]
  obtain ⟨hr1s, hp1⟩ := head?_filter _ _ _ hr1
  rw [Bool.and_eq_true] at hp1
  have hm1 : r1.make = m := by simpa using hp1.1
  have hpid1 : r1.product_id = p := by simpa using hp1.2
  have hc1 := hwf1 r1 hr1s
  obtain ⟨hcode, g1, g2, g3, g4, g5, g6⟩ := id hc1
  have hsub : sqlSubstr r1.ensuredit_id 1 3 = Nat.repr (seg1 r1.ensuredit_id) := by
    apply str_ext
    show (r1.ensuredit_id.data.drop 0).take 3 = (Nat.repr (seg1 r1.ensuredit_id)).data
    rw [codeWF_data _ hc1, repr_data_three _ (by omega) g2]
    rfl
  rw [hsub]
  have hne : Nat.repr (seg1 r1.ensuredit_id) ≠ "" := by
    intro he
    have hdata := congrArg String.data he
    rw [repr_data_three _ (by omega) g2] at hdata
    cases hdata
  rw [if_neg hne, pyInt_repr3 _ (by omega) g2]
  have : seg1 r1.ensuredit_id = seg1 r.ensuredit_id :=
    hwf2 r1 hr1s r hr (by rw [hpid1, hp]) (by rw [hm1, hm])
  rw [this]

theorem modelIdOpt_head (s : MMVState) (p : Nat) (m mo : String) (mkid : Nat) (r1 : MMVRow)
    (h : (s.filter (fun r => r.make == m && r.model == mo && r.product_id == p)).head? = some r1) :
    modelIdOpt s p m mo mkid =
      (if sqlSubstr r1.ensuredit_id 4 3 = ""
       then some (pyMaxFallback (mmvSegMax s p (toString mkid) 4 3) 100 + 1)
       else pyInt (sqlSubstr r1.ensuredit_id 4 3)) := by
  unfold modelIdOpt
  rw [h]
  rfl

theorem modelIdOpt_fresh (s : MMVState) (p : Nat) (m mo : String) (mkid : Nat)
    (hn : ∀ r ∈ s, ¬(r.product_id = p ∧ r.make = m ∧ r.model = mo)) :
    modelIdOpt s p m mo mkid =
      some (pyMaxFallback (mmvSegMax s p (toString mkid) 4 3) 100 + 1) := by
  unfold modelIdOpt
  have hfe : s.filter (fun r => r.make == m && r.model == mo && r.product_id == p) = [] := by
    rw [List.filter_eq_nil_iff]
    intro r hr
    rw [Bool.and_eq_true, Bool.and_eq_true]
    rintro ⟨⟨h1, h2⟩, h3⟩
    exact hn r hr ⟨by simpa using h3, by simpa using h1, by simpa using h2⟩
  rw [hfe]
  rfl

theorem modelIdOpt_exists (s : MMVState) (p : Nat) (m mo : String) (mkid : Nat) (hwf : WF s)
    (r : MMVRow) (hr : r ∈ s) (hp : r.product_id = p) (hm : r.make = m) (hmo : r.model = mo) :
    modelIdOpt s p m mo mkid = some (seg2 r.ensuredit_id) := by
  obtain ⟨hwf1, hwf2, hwf3, hwf4⟩ := hwf
  obtain ⟨r1, hr1⟩ := filter_head?_isSome
    (fun r => r.make == m && r.model == mo && r.product_id == p) s r hr (by simp [hm, hmo, hp])
  rw [modelIdOpt_head s p m mo mkid r1 hr1]
  obtain ⟨hr1s, hp1⟩ := head?_filter _ _ _ hr1
  rw [Bool.and_eq_true, Bool.and_eq_true] at hp1
  have hm1 : r1.make = m := by simpa using hp1.1.1
  have hmo1 : r1.model = mo := by simpa using hp1.1.2
  have hpid1 : r1.product_id = p := by simpa using hp1.2
  have hc1 := hwf1 r1 hr1s
  obtain ⟨hcode, g1, g2, g3, g4, g5, g6⟩ := id hc1
  have hsub : sqlSubstr r1.ensuredit_id 4 3 = Nat.repr (seg2 r1.ensuredit_id) := by
    apply str_ext
    show (r1.ensuredit_id.data.drop 3).take 3 = (Nat.repr (seg2 r1.ensuredit_id)).data
    rw [codeWF_data _ hc1, repr_data_three _ (by omega) g4]
    rfl
  rw [hsub]
  have hne : Nat.repr (seg2 r1.ensuredit_id) ≠ "" := by
    intro he
    have hdata := congrArg String.data he
    rw [repr_data_three _ (by omega) g4] at hdata
    cases hdata
  rw [if_neg hne, pyInt_repr3 _ (by omega) g4]
  have : seg2 r1.ensuredit_id = seg2 r.ensuredit_id :=
    hwf3 r1 hr1s r hr (by rw [hpid1, hp]) (by rw [hm1, hm]) (by rw [hmo1, hmo])
  rw [this]

theorem variantIdOpt_head (s : MMVState) (p : Nat) (m mo v : String) (mkid mdid : Nat)
    (r1 : MMVRow)
    (h : (s.filter (fun r => r.make == m && r.model == mo && r.variant == v &&
      r.product_id == p)).head? = some r1) :
    variantIdOpt s p m mo v mkid mdid =
      (if sqlSubstr r1.ensuredit_id 7 2 = ""
       then some (pyMaxFallback (mmvSegMax s p (toString mkid ++ toString mdid) 7 2) 0 + 1)
       else pyInt (sqlSubstr r1.ensuredit_id 7 2)) := by
  unfold variantIdOpt
  rw [h]
  rfl

theorem variantIdOpt_fresh (s : MMVState) (p : Nat) (m mo v : String) (mkid mdid : Nat)
    (hn : ∀ r ∈ s, ¬(r.product_id = p ∧ r.make = m ∧ r.model = mo ∧ r.variant = v)) :
    variantIdOpt s p m mo v mkid mdid =
      some (pyMaxFallback (mmvSegMax s p (toString mkid ++ toString mdid) 7 2) 0 + 1) := by
  unfold variantIdOpt
  have hfe : s.filter (fun r => r.make == m && r.model == mo && r.variant == v &&
      r.product_id == p) = [] := by
    rw [List.filter_eq_nil_iff]
    intro r hr
    rw [Bool.and_eq_true, Bool.and_eq_true, Bool.and_eq_true]
    rintro ⟨⟨⟨h1, h2⟩, h3⟩, h4⟩
    exact hn r hr ⟨by simpa using h4, by simpa using h1, by simpa using h2, by simpa using h3⟩
  rw [hfe]
  rfl

theorem variantIdOpt_exists (s : MMVState) (p : Nat) (m mo v : String) (mkid mdid : Nat)
    (hwf : WF s) (r : MMVRow) (hr : r ∈ s) (hp : r.product_id = p) (hm : r.make = m)
    (hmo : r.model = mo) (hv : r.variant = v) :
    variantIdOpt s p m mo v mkid mdid = some (seg3 r.ensuredit_id) := by
  obtain ⟨hwf1, hwf2, hwf3, hwf4⟩ := hwf
  obtain ⟨r1, hr1⟩ := filter_head?_isSome
    (fun r => r.make == m && r.model == mo && r.variant == v && r.product_id == p)
    s r hr (by simp [hm, hmo, hv, hp])
  rw [variantIdOpt_head s p m mo v mkid mdid r1 hr1]
  obtain ⟨hr1s, hp1⟩ := head?_filter _ _ _ hr1
  rw [Bool.and_eq_true, Bool.and_eq_true, Bool.and_eq_true] at hp1
  have hm1 : r1.make = m := by simpa using hp1.1.1.1
  have hmo1 : r1.model = mo := by simpa using hp1.1.1.2
  have hv1 : r1.variant = v := by simpa using hp1.1.2
  have hpid1 : r1.product_id = p := by simpa using hp1.2
  have hc1 := hwf1 r1 hr1s
  obtain ⟨hcode, g1, g2, g3, g4, g5, g6⟩ := id hc1
  have hsub : sqlSubstr r1.ensuredit_id 7 2 = pad2 (seg3 r1.ensuredit_id) := by
    apply str_ext
    show (r1.ensuredit_id.data.drop 6).take 2 = (pad2 (seg3 r1.ensuredit_id)).data
    rw [codeWF_data _ hc1, pad2_data _ g6]
    rfl
  rw [hsub]
  have hne : pad2 (seg3 r1.ensuredit_id) ≠ "" := by
    intro he
    have hdata := congrArg String.data he
    rw [pad2_data _ g6] at hdata
    cases hdata
  rw [if_neg hne, pyInt_pad2 _ g6]
  have hsame : r1.ensuredit_id = r.ensuredit_id :=
    hwf4 r1 hr1s r hr (by rw [hpid1, hp]) (by rw [hm1, hm]) (by rw [hmo1, hmo])
      (by rw [hv1, hv])
  rw [hsame]

theorem alloc_eq (s : MMVState) (p : Nat) (m mo v : String) (a b c : Nat)
    (h1 : makeIdOpt s p m = some a) (h2 : modelIdOpt s p m mo a = some b)
    (h3 : variantIdOpt s p m mo v a b = some c) :
    get_or_create_ids s p m mo v = some (a, b, c) := by
  unfold get_or_create_ids
  rw [h1]
  simp only [Option.some_bind]
  rw [h2]
  simp only [Option.some_bind]
  rw [h3]
  simp only [Option.map_some']

theorem alloc_inv (s : MMVState) (p : Nat) (m mo v : String) (a b c : Nat)
    (h : get_or_create_ids s p m mo v = some (a, b, c)) :
    makeIdOpt s p m = some a ∧ modelIdOpt s p m mo a = some b ∧
      variantIdOpt s p m mo v a b = some c := by
  unfold get_or_create_ids at h
  cases h1 : makeIdOpt s p m with
  | none => rw [h1] at h; cases h
  | some a' =>
    rw [h1] at h
    simp only [Option.some_bind] at h
    cases h2 : modelIdOpt s p m mo a' with
    | none => rw [h2] at h; cases h
    | some b' =>
      rw [h2] at h
      simp only [Option.some_bind] at h
      cases h3 : variantIdOpt s p m mo v a' b' with
      | none => rw [h3] at h; cases h
      | some c' =>
        rw [h3] at h
        simp only [Option.map_some'] at h
        have hac : a' = a ∧ b' = b ∧ c' = c := by
          have := Option.some.inj h
          exact ⟨congrArg Prod.fst this, congrArg Prod.fst (congrArg Prod.snd this),
            congrArg Prod.snd (congrArg Prod.snd this)⟩
        obtain ⟨ha, hb, hc⟩ := hac
        refine ⟨?_, ?_, ?_⟩
        · rw [ha]
        · rw [← ha, h2, hb]
        · rw [← ha, ← hb, h3, hc]

/-! ## Main allocator lemmas: reuse, preservation, freshness -/

/-- Re-deriving ids for a stored row returns exactly the segments its code
carries. -/
theorem alloc_reuse (s : MMVState) (p : Nat) (hwf : WF s) (r : MMVRow)
    (hr : r ∈ s) (hp : r.product_id = p) :
    get_or_create_ids s p r.make r.model r.variant =
      some (seg1 r.ensuredit_id, seg2 r.ensuredit_id, seg3 r.ensuredit_id) :=
  alloc_eq s p r.make r.model r.variant _ _ _
    (makeIdOpt_exists s p r.make hwf r hr hp rfl)
    (modelIdOpt_exists s p r.make r.model _ hwf r hr hp rfl rfl)
    (variantIdOpt_exists s p r.make r.model r.variant _ _ hwf r hr hp rfl rfl rfl)

theorem pyMaxFallback_pos (M d : Nat) (h : M ≠ 0) :
    pyMaxFallback (some (some M)) d = M := by
  simp only [pyMaxFallback]
  rw [if_neg h]

/-- Integrity is preserved by inserting a freshly allocated row whose
segments are consistent with its make and model. -/
theorem WF_insert (s : MMVState) (p : Nat) (m mo v : String) (mk md vt : Nat)
    (hwf : WF s)
    (hr1 : 101 ≤ mk) (hr2 : mk ≤ 999) (hr3 : 101 ≤ md) (hr4 : md ≤ 999)
    (hr5 : 1 ≤ vt) (hr6 : vt ≤ 99)
    (hfresh : ∀ r ∈ s, ¬(r.product_id = p ∧ r.make = m ∧ r.model = mo ∧ r.variant = v))
    (hmkseg : ∀ r ∈ s, r.product_id = p → r.make = m → seg1 r.ensuredit_id = mk)
    (hmdseg : ∀ r ∈ s, r.product_id = p → r.make = m → r.model = mo →
      seg2 r.ensuredit_id = md) :
    WF (s ++ [⟨p, m, mo, v, mkCompositeCode mk md vt⟩]) := by
  obtain ⟨hwf1, hwf2, hwf3, hwf4⟩ := hwf
  have hnseg1 : seg1 (mkCompositeCode mk md vt) = mk :=
    seg1_mkCode mk md vt (by omega) hr2 (by omega) hr4 hr6
  have hnseg2 : seg2 (mkCompositeCode mk md vt) = md :=
    seg2_mkCode mk md vt (by omega) hr2 (by omega) hr4 hr6
  have hmem : ∀ r : MMVRow, r ∈ s ++ [⟨p, m, mo, v, mkCompositeCode mk md vt⟩] →
      r ∈ s ∨ r = ⟨p, m, mo, v, mkCompositeCode mk md vt⟩ := by
    intro r hr
    rcases List.mem_append.mp hr with hin | hnew
    · exact Or.inl hin
    · exact Or.inr (List.mem_singleton.mp hnew)
  refine ⟨?_, ?_, ?_, ?_⟩
  · intro r hr
    rcases hmem r hr with hin | rfl
    · exact hwf1 r hin
    · exact codeWF_mkCode mk md vt hr1 hr2 hr3 hr4 hr5 hr6
  · intro r hr r' hr' hpp hmm
    rcases hmem r hr with hin | rfl <;> rcases hmem r' hr' with hin' | heq'
    · exact hwf2 r hin r' hin' hpp hmm
    · subst heq'
      rw [hnseg1]
      exact hmkseg r hin (by simpa using hpp) (by simpa using hmm)
    · rw [hnseg1]
      exact (hmkseg r' hin' (by simpa using hpp.symm) (by simpa using hmm.symm)).symm
    · rw [heq']
  · intro r hr r' hr' hpp hmm hmo2
    rcases hmem r hr with hin | rfl <;> rcases hmem r' hr' with hin' | heq'
    · exact hwf3 r hin r' hin' hpp hmm hmo2
    · subst heq'
      rw [hnseg2]
      exact hmdseg r hin (by simpa using hpp) (by simpa using hmm) (by simpa using hmo2)
    · rw [hnseg2]
      exact (hmdseg r' hin' (by simpa using hpp.symm) (by simpa using hmm.symm)
        (by simpa using hmo2.symm)).symm
    · rw [heq']
  · intro r hr r' hr' hpp hmm hmo2 hvv
    rcases hmem r hr with hin | rfl <;> rcases hmem r' hr' with hin' | heq'
    · exact hwf4 r hin r' hin' hpp hmm hmo2 hvv
    · subst heq'
      exact absurd ⟨by simpa using hpp, by simpa using hmm, by simpa using hmo2,
        by simpa using hvv⟩ (hfresh r hin)
    · exact absurd ⟨by simpa using hpp.symm, by simpa using hmm.symm,
        by simpa using hmo2.symm, by simpa using hvv.symm⟩ (hfresh r' hin')
    · rw [heq']

/-- Allocating a triple not present in a well-formed state yields in-range
segments, a code distinct from every code of the product scope, and a
still well-formed state after insertion, provided the allocation does not
overflow the 3+3+2 layout. -/
theorem alloc_fresh (s : MMVState) (p : Nat) (m mo v : String) (mk md vt : Nat)
    (hwf : WF s)
    (hfresh : ∀ r ∈ s, ¬(r.product_id = p ∧ r.make = m ∧ r.model = mo ∧ r.variant = v))
    (h : get_or_create_ids s p m mo v = some (mk, md, vt))
    (hbk : mk ≤ 999) (hbd : md ≤ 999) (hbv : vt ≤ 99) :
    101 ≤ mk ∧ 101 ≤ md ∧ 1 ≤ vt ∧
    (∀ r ∈ s, r.product_id = p → r.ensuredit_id ≠ mkCompositeCode mk md vt) ∧
    WF (s ++ [⟨p, m, mo, v, mkCompositeCode mk md vt⟩]) := by
  obtain ⟨h1, h2, h3⟩ := alloc_inv s p m mo v mk md vt h
  have hwfc := hwf
  obtain ⟨hwf1, hwf2, hwf3, hwf4⟩ := hwfc
  by_cases hmk_ex : ∃ r, r ∈ s ∧ r.product_id = p ∧ r.make = m
  · -- the make already has rows in the scope: its segment is reused
    obtain ⟨r0, hr0, hp0, hm0⟩ := hmk_ex
    have hmk_eq : mk = seg1 r0.ensuredit_id := by
      rw [makeIdOpt_exists s p m hwf r0 hr0 hp0 hm0] at h1
      exact (Option.some.inj h1).symm
    obtain ⟨-, g1, g2, -, -, -, -⟩ := hwf1 r0 hr0
    have hmk101 : 101 ≤ mk := by omega
    have hmkseg : ∀ r ∈ s, r.product_id = p → r.make = m → seg1 r.ensuredit_id = mk := by
      intro r hr hpr hmr
      rw [hmk_eq]
      exact hwf2 r hr r0 hr0 (by rw [hpr, hp0]) (by rw [hmr, hm0])
    by_cases hmo_ex : ∃ r, r ∈ s ∧ r.product_id = p ∧ r.make = m ∧ r.model = mo
    · -- the model also exists: its segment is reused, the variant is fresh
      obtain ⟨r1, hr1, hp1, hm1, hmo1⟩ := hmo_ex
      have hmd_eq : md = seg2 r1.ensuredit_id := by
        rw [modelIdOpt_exists s p m mo mk hwf r1 hr1 hp1 hm1 hmo1] at h2
        exact (Option.some.inj h2).symm
      obtain ⟨-, -, -, g3, g4, -, -⟩ := hwf1 r1 hr1
      have hmd101 : 101 ≤ md := by omega
      have hmdseg : ∀ r ∈ s, r.product_id = p → r.make = m → r.model = mo →
          seg2 r.ensuredit_id = md := by
        intro r hr hpr hmr hmor
        rw [hmd_eq]
        exact hwf3 r hr r1 hr1 (by rw [hpr, hp1]) (by rw [hmr, hm1]) (by rw [hmor, hmo1])
      have hseg1r1 : seg1 r1.ensuredit_id = mk := hmkseg r1 hr1 hp1 hm1
      obtain ⟨M, hM, hM1, hM99, hMbound⟩ := segMax72_some s p mk md hwf1
        (by omega) hbk (by omega) hbd r1 hr1 hp1 hseg1r1 hmd_eq.symm
      have hvt_eq : vt = M + 1 := by
        rw [variantIdOpt_fresh s p m mo v mk md hfresh, hM,
          pyMaxFallback_pos M 0 (by omega)] at h3
        exact (Option.some.inj h3).symm
      have hvt1 : 1 ≤ vt := by omega
      refine ⟨hmk101, hmd101, hvt1, ?_, ?_⟩
      · intro r hr hpr hcode
        have hs1 : seg1 r.ensuredit_id = mk := by
          rw [hcode, seg1_mkCode mk md vt (by omega) hbk (by omega) hbd hbv]
        have hs2 : seg2 r.ensuredit_id = md := by
          rw [hcode, seg2_mkCode mk md vt (by omega) hbk (by omega) hbd hbv]
        have hs3 : seg3 r.ensuredit_id = vt := by
          rw [hcode, seg3_mkCode mk md vt (by omega) hbk (by omega) hbd hbv]
        have := hMbound r hr hpr hs1 hs2
        omega
      · exact WF_insert s p m mo v mk md vt hwf hmk101 hbk hmd101 hbd hvt1 hbv
          hfresh hmkseg hmdseg
    · -- the model is fresh under an existing make
      have hmo_none : ∀ r ∈ s, ¬(r.product_id = p ∧ r.make = m ∧ r.model = mo) := by
        intro r hr hcon
        exact hmo_ex ⟨r, hr, hcon⟩
      obtain ⟨M2, hM2, hM2a, hM2b, hM2bound, hM2wit⟩ := segMax43_some s p mk hwf1
        (by omega) hbk r0 hr0 hp0 (hmkseg r0 hr0 hp0 hm0)
      have hmd_eq : md = M2 + 1 := by
        rw [modelIdOpt_fresh s p m mo mk hmo_none, hM2,
          pyMaxFallback_pos M2 100 (by omega)] at h2
        exact (Option.some.inj h2).symm
      have hmd101 : 101 ≤ md := by omega
      have hmdseg : ∀ r ∈ s, r.product_id = p → r.make = m → r.model = mo →
          seg2 r.ensuredit_id = md := by
        intro r hr hpr hmr hmor
        exact absurd ⟨hpr, hmr, hmor⟩ (hmo_none r hr)
      have hno72 : ∀ r ∈ s, r.product_id = p →
          ¬(seg1 r.ensuredit_id = mk ∧ seg2 r.ensuredit_id = md) := by
        rintro r hr hpr ⟨hs1, hs2⟩
        have := hM2bound r hr hpr hs1
        omega
      have hvt_eq : vt = 1 := by
        rw [variantIdOpt_fresh s p m mo v mk md hfresh,
          segMax72_none s p mk md hwf1 (by omega) hbk (by omega) hbd hno72] at h3
        exact (Option.some.inj h3).symm
      refine ⟨hmk101, hmd101, by omega, ?_, ?_⟩
      · intro r hr hpr hcode
        have hs1 : seg1 r.ensuredit_id = mk := by
          rw [hcode, seg1_mkCode mk md vt (by omega) hbk (by omega) hbd hbv]
        have hs2 : seg2 r.ensuredit_id = md := by
          rw [hcode, seg2_mkCode mk md vt (by omega) hbk (by omega) hbd hbv]
        exact hno72 r hr hpr ⟨hs1, hs2⟩
      · exact WF_insert s p m mo v mk md vt hwf hmk101 hbk hmd101 hbd (by omega) hbv
          hfresh hmkseg hmdseg
  · -- the make is fresh: a new prefix above the scope maximum
    have hmk_none : ∀ r ∈ s, ¬(r.product_id = p ∧ r.make = m) := by
      intro r hr hcon
      exact hmk_ex ⟨r, hr, hcon⟩
    obtain ⟨hCM100, hCMbound⟩ := currentMaxMake_bounds s p hwf1
    have hmk_eq : mk = pyMaxFallback (mmvMakeMax s p) (makeStart p - 1) + 1 := by
      rw [makeIdOpt_fresh s p m hmk_none] at h1
      exact (Option.some.inj h1).symm
    have hmk101 : 101 ≤ mk := by omega
    have hseg1_lt : ∀ r ∈ s, r.product_id = p → seg1 r.ensuredit_id < mk := by
      intro r hr hpr
      have := hCMbound r hr hpr
      omega
    have hmkseg : ∀ r ∈ s, r.product_id = p → r.make = m → seg1 r.ensuredit_id = mk := by
      intro r hr hpr hmr
      exact absurd ⟨hpr, hmr⟩ (hmk_none r hr)
    have hmo_none : ∀ r ∈ s, ¬(r.product_id = p ∧ r.make = m ∧ r.model = mo) := by
      rintro r hr ⟨hpr, hmr, -⟩
      exact hmk_none r hr ⟨hpr, hmr⟩
    have hno43 : ∀ r ∈ s, r.product_id = p → seg1 r.ensuredit_id ≠ mk := by
      intro r hr hpr
      have := hseg1_lt r hr hpr
      omega
    have hmd_eq : md = 101 := by
      rw [modelIdOpt_fresh s p m mo mk hmo_none,
        segMax43_none s p mk hwf1 (by omega) hbk hno43] at h2
      exact (Option.some.inj h2).symm
    have hmdseg : ∀ r ∈ s, r.product_id = p → r.make = m → r.model = mo →
        seg2 r.ensuredit_id = md := by
      intro r hr hpr hmr hmor
      exact absurd ⟨hpr, hmr, hmor⟩ (hmo_none r hr)
    have hno72 : ∀ r ∈ s, r.product_id = p →
        ¬(seg1 r.ensuredit_id = mk ∧ seg2 r.ensuredit_id = md) := by
      rintro r hr hpr ⟨hs1, -⟩
      exact hno43 r hr hpr hs1
    have hvt_eq : vt = 1 := by
      rw [variantIdOpt_fresh s p m mo v mk md hfresh,
        segMax72_none s p mk md hwf1 (by omega) hbk (by omega) hbd hno72] at h3
      exact (Option.some.inj h3).symm
    refine ⟨hmk101, by omega, by omega, ?_, ?_⟩
    · intro r hr hpr hcode
      have hs1 : seg1 r.ensuredit_id = mk := by
        rw [hcode, seg1_mkCode mk md vt (by omega) hbk (by omega) hbd hbv]
      exact hno43 r hr hpr hs1
    · exact WF_insert s p m mo v mk md vt hwf hmk101 hbk (by omega) hbd (by omega) hbv
        hfresh hmkseg hmdseg

/-! ## Bulk reconciler support lemmas -/

theorem selectVal_ok_mem (t : DbTable) (dbCol : String) (pid : Option Nat) (recId : String)
    (res : Option (Option String)) (h : selectVal t dbCol pid recId = .ok res) :
    dbCol ∈ t.cols := by
  unfold selectVal at h
  by_cases hm : dbCol ∈ t.cols
  · exact hm
  · rw [if_neg hm] at h
    cases h

theorem selectVal_of_mem (t : DbTable) (dbCol : String) (pid : Option Nat) (recId : String)
    (hm : dbCol ∈ t.cols) :
    selectVal t dbCol pid recId =
      .ok (((t.rows.filter (matchRow pid recId)).head?).map (fun r => lookupVal r dbCol)) := by
  unfold selectVal
  rw [if_pos hm]

theorem selectVal_some_rowcount (t : DbTable) (dbCol : String) (pid : Option Nat)
    (recId : String) (cur : Option String)
    (h : selectVal t dbCol pid recId = .ok (some cur)) :
    0 < (t.rows.filter (matchRow pid recId)).length := by
  rw [selectVal_of_mem t dbCol pid recId (selectVal_ok_mem t dbCol pid recId _ h)] at h
  have hmap := Except.ok.inj h
  cases hf : t.rows.filter (matchRow pid recId) with
  | nil =>
    rw [hf] at hmap
    cases hmap
  | cons a l =>
    exact Nat.succ_pos _

theorem selectVal_none_head (t : DbTable) (dbCol : String) (pid : Option Nat)
    (recId : String) (h : selectVal t dbCol pid recId = .ok none) :
    (t.rows.filter (matchRow pid recId)).head? = none := by
  rw [selectVal_of_mem t dbCol pid recId (selectVal_ok_mem t dbCol pid recId _ h)] at h
  have hmap := Except.ok.inj h
  cases hh : (t.rows.filter (matchRow pid recId)).head? with
  | none => rfl
  | some r =>
    rw [hh] at hmap
    cases hmap

theorem updateVal_ok (t : DbTable) (dbCol : String) (pid : Option Nat) (recId : String)
    (v : Option String) (hm : dbCol ∈ t.cols) :
    updateVal t dbCol pid recId v =
      .ok ({ t with rows := t.rows.map (fun r => if matchRow pid recId r then setVal r dbCol v else r) },
        (t.rows.filter (matchRow pid recId)).length) := by
  unfold updateVal
  rw [if_pos hm]

theorem lookupVal_setVal (r : DbRow) (c : String) (v : Option String) :
    lookupVal (setVal r c v) c = v := by
  unfold lookupVal setVal
  simp [List.lookup]

theorem findMapCols_go_fst (si : String) (cols : List String) :
    ∀ acc : Option String × Option String,
      (∀ c ∈ cols, validIdCols.contains (lowerStr c) = false) →
      (cols.foldl (fun acc c =>
        ((if validIdCols.contains (lowerStr c) then some c else acc.1),
         (if (validPayloadCols si).contains (lowerStr c) then some c else acc.2))) acc).1 = acc.1 := by
  induction cols with
  | nil => intro acc h; rfl
  | cons a l ih =>
    intro acc h
    rw [List.foldl_cons]
    rw [ih _ (fun c hc => h c (List.mem_cons_of_mem a hc))]
    rw [h a (List.mem_cons_self a l)]
    simp

theorem findMapCols_go_snd (si : String) (cols : List String) :
    ∀ acc : Option String × Option String,
      (∀ c ∈ cols, (validPayloadCols si).contains (lowerStr c) = false) →
      (cols.foldl (fun acc c =>
        ((if validIdCols.contains (lowerStr c) then some c else acc.1),
         (if (validPayloadCols si).contains (lowerStr c) then some c else acc.2))) acc).2 = acc.2 := by
  induction cols with
  | nil => intro acc h; rfl
  | cons a l ih =>
    intro acc h
    rw [List.foldl_cons]
    rw [ih _ (fun c hc => h c (List.mem_cons_of_mem a hc))]
    rw [h a (List.mem_cons_self a l)]
    simp

theorem findMapCols_fst_none (si : String) (cols : List String)
    (h : ∀ c ∈ cols, validIdCols.contains (lowerStr c) = false) :
    (findMapCols si cols).1 = none := by
  unfold findMapCols
  exact findMapCols_go_fst si cols (none, none) h

theorem findMapCols_snd_none (si : String) (cols : List String)
    (h : ∀ c ∈ cols, (validPayloadCols si).contains (lowerStr c) = false) :
    (findMapCols si cols).2 = none := by
  unfold findMapCols
  exact findMapCols_go_snd si cols (none, none) h

theorem process_txError_inv (t : DbTable) (insurer : String) (df : CsvFrame)
    (ov : Bool) (pid : Option Nat) (t2 : DbTable) (e : String)
    (h : process_bulk_mapping_upload t insurer df ov pid = (t2, .txError e)) :
    t2 = t := by
  simp only [process_bulk_mapping_upload] at h
  rcases hfc : findMapCols (lowerStr insurer) (df.cols.map strip) with ⟨o1, o2⟩
  match o1, o2 with
  | some idCol, some pCol =>
    simp only [hfc] at h
    rcases hrun : runRows (lowerStr insurer) (lowerStr insurer) pid ov
        (bulkRows (df.cols.map strip) df.cells idCol pCol) (t, ⟨0, 0, 0⟩) with e2 | ⟨ta, ca⟩
    · simp only [hrun] at h
      exact (congrArg Prod.fst h).symm
    · simp only [hrun] at h
      cases congrArg Prod.snd h
  | some idCol, none =>
    simp only [hfc] at h
    cases congrArg Prod.snd h
  | none, some pCol =>
    simp only [hfc] at h
    cases congrArg Prod.snd h
  | none, none =>
    simp only [hfc] at h
    cases congrArg Prod.snd h

theorem process_done_inv (t : DbTable) (insurer : String) (df : CsvFrame)
    (ov : Bool) (pid : Option Nat) (t2 : DbTable) (c : BulkCounters)
    (h : process_bulk_mapping_upload t insurer df ov pid = (t2, .done c)) :
    ∃ idCol pCol,
      findMapCols (lowerStr insurer) (df.cols.map strip) = (some idCol, some pCol) ∧
      runRows (lowerStr insurer) (lowerStr insurer) pid ov
        (bulkRows (df.cols.map strip) df.cells idCol pCol) (t, ⟨0, 0, 0⟩) = .ok (t2, c) := by
  simp only [process_bulk_mapping_upload] at h
  rcases hfc : findMapCols (lowerStr insurer) (df.cols.map strip) with ⟨o1, o2⟩
  match o1, o2 with
  | some idCol, some pCol =>
    simp only [hfc] at h
    rcases hrun : runRows (lowerStr insurer) (lowerStr insurer) pid ov
        (bulkRows (df.cols.map strip) df.cells idCol pCol) (t, ⟨0, 0, 0⟩) with e2 | ⟨ta, ca⟩
    · simp only [hrun] at h
      cases congrArg Prod.snd h
    · simp only [hrun] at h
      refine ⟨idCol, pCol, rfl, ?_⟩
      have h1 : ta = t2 := congrArg Prod.fst h
      have h2 : BulkOutcome.done ca = BulkOutcome.done c := congrArg Prod.snd h
      have h3 : ca = c := by
        cases h2
        rfl
      rw [hrun, h1, h3]
  | some idCol, none =>
    simp only [hfc] at h
    cases congrArg Prod.snd h
  | none, some pCol =>
    simp only [hfc] at h
    cases congrArg Prod.snd h
  | none, none =>
    simp only [hfc] at h
    cases congrArg Prod.snd h

/-! ## Per-row outcome lemmas -/

/-- A row whose business key finds no record only increments the error
counter: the table is unchanged and the loop continues (no exception). -/
theorem processRow_notfound (t : DbTable) (cnt : BulkCounters) (dbCol si : String)
    (pid : Option Nat) (ov : Bool) (idCell pCell : CsvCell)
    (hsel : selectVal t dbCol pid (strip (cellStr idCell)) = .ok none) :
    processRow dbCol si pid ov idCell pCell (t, cnt) =
      .ok (t, { cnt with errors := cnt.errors + 1 }) := by
  have hhead := selectVal_none_head _ _ _ _ hsel
  have hleg : (match selectVal t "royal" pid (strip (cellStr idCell)) with
      | .ok (some v) => v
      | _ => (none : Option String)) = none := by
    by_cases hmem : "royal" ∈ t.cols
    · rw [selectVal_of_mem _ _ _ _ hmem, hhead]
      rfl
    · unfold selectVal
      rw [if_neg hmem]
  by_cases hsi : si = "royalsundaram"
  · simp [processRow, hsel, hsi, hleg]
  · simp [processRow, hsel, hsi]

/-- A matched row whose decision chain chooses to update executes the
update against the same state and counts it as updated (`rowcount > 0`
since the key just matched). -/
theorem processRow_updates (t : DbTable) (cnt : BulkCounters) (dbCol si : String)
    (pid : Option Nat) (ov : Bool) (idCell pCell : CsvCell) (cur : Option String)
    (hsel : selectVal t dbCol pid (strip (cellStr idCell)) = .ok (some cur))
    (hdec : (if ov then true
             else if cur.isNone || cur == some "" || cur == some "\x7b\x7d" then
               normalizePayload pCell != ""
             else if cur.getD "" != normalizePayload pCell then true
             else false) = true) :
    processRow dbCol si pid ov idCell pCell (t, cnt) =
      .ok ({ t with rows := t.rows.map (fun r =>
          if matchRow pid (strip (cellStr idCell)) r then
            setVal r dbCol (if normalizePayload pCell = "" then none
              else some (normalizePayload pCell))
          else r) },
        { cnt with updated := cnt.updated + 1 }) := by
  have hmem := selectVal_ok_mem _ _ _ _ _ hsel
  have hrc := selectVal_some_rowcount _ _ _ _ _ hsel
  simp only [processRow, hsel]
  rw [hdec]
  simp [updateVal_ok t dbCol pid (strip (cellStr idCell)) _ hmem, hrc]

/-- A matched row whose decision chain declines the update is only counted
as skipped: the table is unchanged. -/
theorem processRow_skips (t : DbTable) (cnt : BulkCounters) (dbCol si : String)
    (pid : Option Nat) (ov : Bool) (idCell pCell : CsvCell) (cur : Option String)
    (hsel : selectVal t dbCol pid (strip (cellStr idCell)) = .ok (some cur))
    (hdec : (if ov then true
             else if cur.isNone || cur == some "" || cur == some "\x7b\x7d" then
               normalizePayload pCell != ""
             else if cur.getD "" != normalizePayload pCell then true
             else false) = false) :
    processRow dbCol si pid ov idCell pCell (t, cnt) =
      .ok (t, { cnt with skipped := cnt.skipped + 1 }) := by
  simp only [processRow, hsel]
  rw [hdec]
  simp

/-- A single row step never stores the non-NULL empty string: every row of
the table after the step either was already present or now holds a value
other than `some ""` in the insurer column. -/
theorem processRow_no_empty_write (dbCol si : String) (pid : Option Nat) (ov : Bool)
    (ic pc : CsvCell) (t0 : DbTable) (cnt : BulkCounters) (t1 : DbTable)
    (cnt1 : BulkCounters)
    (h : processRow dbCol si pid ov ic pc (t0, cnt) = .ok (t1, cnt1)) :
    ∀ r ∈ t1.rows, r ∈ t0.rows ∨ lookupVal r dbCol ≠ some "" := by
  cases hsel : selectVal t0 dbCol pid (strip (cellStr ic)) with
  | error e =>
    simp [processRow, hsel] at h
  | ok result =>
    cases result with
    | none =>
      rw [processRow_notfound t0 cnt dbCol si pid ov ic pc hsel] at h
      have h2 := Except.ok.inj h
      rw [Prod.mk.injEq] at h2
      obtain ⟨ht, -⟩ := h2
      subst ht
      intro r hr
      exact Or.inl hr
    | some cur =>
      cases hb : (if ov then true
          else if cur.isNone || cur == some "" || cur == some "\x7b\x7d" then
            normalizePayload pc != ""
          else if cur.getD "" != normalizePayload pc then true
          else false) with
      | false =>
        rw [processRow_skips t0 cnt dbCol si pid ov ic pc cur hsel hb] at h
        have h2 := Except.ok.inj h
        rw [Prod.mk.injEq] at h2
        obtain ⟨ht, -⟩ := h2
        subst ht
        intro r hr
        exact Or.inl hr
      | true =>
        rw [processRow_updates t0 cnt dbCol si pid ov ic pc cur hsel hb] at h
        have h2 := Except.ok.inj h
        rw [Prod.mk.injEq] at h2
        obtain ⟨ht, -⟩ := h2
        subst ht
        intro r hr
        obtain ⟨r0, hr0, hre⟩ := List.mem_map.mp hr
        by_cases hmr : matchRow pid (strip (cellStr ic)) r0 = true
        · rw [if_pos hmr] at hre
          right
          rw [← hre, lookupVal_setVal]
          by_cases hcl : normalizePayload pc = ""
          · rw [if_pos hcl]
            intro hcontra
            cases hcontra
          · rw [if_neg hcl]
            intro hcontra
            exact hcl (Option.some.inj hcontra)
        · rw [if_neg hmr] at hre
          rw [← hre]
          exact Or.inl hr0
    
/-- A row-wise invariant preserved by each step is preserved by the whole
row loop. -/
theorem runRows_preserve (dbCol si : String) (pid : Option Nat) (ov : Bool)
    (P : DbRow → Prop)
    (hstep : ∀ t0 cnt t1 cnt1 ic pc,
      processRow dbCol si pid ov ic pc (t0, cnt) = .ok (t1, cnt1) →
      (∀ r ∈ t0.rows, P r) → ∀ r ∈ t1.rows, P r) :
    ∀ (rows : List (CsvCell × CsvCell)) (acc : DbTable × BulkCounters)
      (t2 : DbTable) (c2 : BulkCounters),
      runRows dbCol si pid ov rows acc = .ok (t2, c2) →
      (∀ r ∈ acc.1.rows, P r) → ∀ r ∈ t2.rows, P r := by
  intro rows
  induction rows with
  | nil =>
    intro acc t2 c2 hrun hinv
    rcases acc with ⟨ta, ca⟩
    simp only [runRows] at hrun
    have h2 := Except.ok.inj hrun
    rw [Prod.mk.injEq] at h2
    obtain ⟨ht, -⟩ := h2
    subst ht
    exact hinv
  | cons rc rest ih =>
    intro acc t2 c2 hrun hinv
    rcases acc with ⟨ta, ca⟩
    simp only [runRows] at hrun
    cases hp : processRow dbCol si pid ov rc.1 rc.2 (ta, ca) with
    | error e =>
      rw [hp] at hrun
      cases hrun
    | ok acc2 =>
      rw [hp] at hrun
      rcases acc2 with ⟨tb, cb⟩
      exact ih (tb, cb) t2 c2 hrun (hstep ta ca tb cb rc.1 rc.2 hp hinv)

/-- Evaluation of the whole allocator for a fresh make: the new prefix is
`current_max + 1`, and the first model and variant get 101 and 1. -/
theorem alloc_fresh_make_val (s : MMVState) (p : Nat) (m mo v : String)
    (hwf : WF s)
    (hmk_none : ∀ r ∈ s, ¬(r.product_id = p ∧ r.make = m))
    (hbound : pyMaxFallback (mmvMakeMax s p) (makeStart p - 1) + 1 ≤ 999) :
    get_or_create_ids s p m mo v =
      some (pyMaxFallback (mmvMakeMax s p) (makeStart p - 1) + 1, 101, 1) := by
  obtain ⟨hwf1, -, -, -⟩ := hwf
  obtain ⟨hCM100, hCMbound⟩ := currentMaxMake_bounds s p hwf1
  have hmo_none : ∀ r ∈ s, ¬(r.product_id = p ∧ r.make = m ∧ r.model = mo) := by
    rintro r hr ⟨hpr, hmr, -⟩
    exact hmk_none r hr ⟨hpr, hmr⟩
  have hv_none : ∀ r ∈ s, ¬(r.product_id = p ∧ r.make = m ∧ r.model = mo ∧ r.variant = v) := by
    rintro r hr ⟨hpr, hmr, -, -⟩
    exact hmk_none r hr ⟨hpr, hmr⟩
  have hno43 : ∀ r ∈ s, r.product_id = p →
      seg1 r.ensuredit_id ≠ pyMaxFallback (mmvMakeMax s p) (makeStart p - 1) + 1 := by
    intro r hr hpr
    have := hCMbound r hr hpr
    omega
  have hno72 : ∀ r ∈ s, r.product_id = p →
      ¬(seg1 r.ensuredit_id = pyMaxFallback (mmvMakeMax s p) (makeStart p - 1) + 1 ∧
        seg2 r.ensuredit_id = 101) := by
    rintro r hr hpr ⟨hs1, -⟩
    exact hno43 r hr hpr hs1
  apply alloc_eq
  · exact makeIdOpt_fresh s p m hmk_none
  · rw [modelIdOpt_fresh s p m mo _ hmo_none,
      segMax43_none s p _ hwf1 (by omega) hbound hno43]
    rfl
  · rw [variantIdOpt_fresh s p m mo v _ _ hv_none,
      segMax72_none s p _ 101 hwf1 (by omega) hbound (by omega) (by omega) hno72]
    rfl

/-! ## Claim theorems -/

/-- C1: In `process_bulk_mapping_upload` with `overwrite_existing = false`, for a
CSV row whose business key matches an existing record, the decision chain is:
if the current mapping value is absent (`NULL`), the empty string, or the
literal `"\x7b\x7d"`, the row is updated exactly when the normalised incoming
payload is non-empty and skipped otherwise; else if the current value differs
textually from the payload the row is updated; and if the current
(non-empty-equivalent) value equals the payload the row is counted as
skipped, never updated.  In particular payload `""` against existing
mapping `"\x7b\x7d"` is skipped. -/
theorem claim_C1_bulk_policy_no_overwrite (t : DbTable) (cnt : BulkCounters)
    (dbCol si : String) (pid : Option Nat) (idCell pCell : CsvCell) (cur : Option String)
    (hsel : selectVal t dbCol pid (strip (cellStr idCell)) = .ok (some cur)) :
    ((cur = none ∨ cur = some "" ∨ cur = some "\x7b\x7d") →
      (normalizePayload pCell = "" →
        processRow dbCol si pid false idCell pCell (t, cnt) =
          .ok (t, { cnt with skipped := cnt.skipped + 1 })) ∧
      (normalizePayload pCell ≠ "" →
        ∃ t2, processRow dbCol si pid false idCell pCell (t, cnt) =
          .ok (t2, { cnt with updated := cnt.updated + 1 }))) ∧
    (∀ w, cur = some w → w ≠ "" → w ≠ "\x7b\x7d" → w ≠ normalizePayload pCell →
      ∃ t2, processRow dbCol si pid false idCell pCell (t, cnt) =
        .ok (t2, { cnt with updated := cnt.updated + 1 })) ∧
    (∀ w, cur = some w → w ≠ "" → w ≠ "\x7b\x7d" → w = normalizePayload pCell →
      processRow dbCol si pid false idCell pCell (t, cnt) =
        .ok (t, { cnt with skipped := cnt.skipped + 1 })) := by
  refine ⟨fun hcur => ⟨fun hclean => ?_, fun hclean => ?_⟩,
    fun w hw hw1 hw2 hw3 => ?_, fun w hw hw1 hw2 hw3 => ?_⟩
  · apply processRow_skips t cnt dbCol si pid false idCell pCell cur hsel
    rcases hcur with rfl | rfl | rfl <;> simp [hclean]
  · refine ⟨_, processRow_updates t cnt dbCol si pid false idCell pCell cur hsel ?_⟩
    rcases hcur with rfl | rfl | rfl <;> simp [bne_iff_ne, hclean]
  · subst hw
    refine ⟨_, processRow_updates t cnt dbCol si pid false idCell pCell _ hsel ?_⟩
    simp [bne_iff_ne, hw1, hw2, hw3]
  · subst hw
    apply processRow_skips t cnt dbCol si pid false idCell pCell _ hsel
    simp [bne_iff_ne, hw1, hw2, hw3]
    rintro (h | h)
    · exact h
    · exact absurd (hw3.trans h) hw2

/-- C1 witness: payload `""` against existing mapping `"\x7b\x7d"` with
overwrite off is skipped. -/
theorem claim_C1_example_skip :
    processRow "icici" "icici" none false (CsvCell.s "400001") (CsvCell.s "")
      (⟨["icici"], [⟨"400001", 1, [("icici", some "\x7b\x7d")]⟩]⟩, ⟨0, 0, 0⟩) =
      .ok (⟨["icici"], [⟨"400001", 1, [("icici", some "\x7b\x7d")]⟩]⟩, ⟨0, 0, 1⟩) :=
  ((claim_C1_bulk_policy_no_overwrite
      ⟨["icici"], [⟨"400001", 1, [("icici", some "\x7b\x7d")]⟩]⟩ ⟨0, 0, 0⟩
      "icici" "icici" none (CsvCell.s "400001") (CsvCell.s "")
      (some "\x7b\x7d") rfl).1
    (Or.inr (Or.inr rfl))).1 rfl

/-- C2: For a `(product_id, make, model, variant)` triple already stored in a
well-formed `mmv_master` state, `get_or_create_ids` returns exactly the
`(make_id, model_id, variant_id)` segments its stored composite code
carries, and re-concatenating them reproduces the stored code: allocation
is idempotent for existing triples. -/
theorem claim_C2_alloc_idempotent (s : MMVState) (p : Nat) (r : MMVRow)
    (hwf : WF s) (hr : r ∈ s) (hp : r.product_id = p) :
    get_or_create_ids s p r.make r.model r.variant =
      some (seg1 r.ensuredit_id, seg2 r.ensuredit_id, seg3 r.ensuredit_id) ∧
    mkCompositeCode (seg1 r.ensuredit_id) (seg2 r.ensuredit_id) (seg3 r.ensuredit_id) =
      r.ensuredit_id :=
  ⟨alloc_reuse s p hwf r hr hp, ((hwf.1 r hr).1).symm⟩

/-- C2 witness: re-deriving ids for the stored row `10110101` returns
`(101, 101, 1)` and rebuilds `"10110101"`. -/
theorem claim_C2_concrete :
    get_or_create_ids [⟨1, "Honda", "Activa", "Std", "10110101"⟩] 1
      "Honda" "Activa" "Std" = some (101, 101, 1) ∧
    mkCompositeCode 101 101 1 = "10110101" := by
  have h := claim_C2_alloc_idempotent [⟨1, "Honda", "Activa", "Std", "10110101"⟩] 1
    ⟨1, "Honda", "Activa", "Std", "10110101"⟩ (by decide)
    (List.mem_singleton.mpr rfl) rfl
  exact ⟨h.1, h.2⟩

/-- C3: Within one `product_id` scope of a well-formed state, two distinct
`(make, model, variant)` triples allocated in sequence (the first one fresh
and its row inserted before the second allocation) never receive the same
composite code, provided neither allocation overflows the 3+3+2 layout. -/
theorem claim_C3_no_collision (s : MMVState) (p : Nat) (m1 mo1 v1 m2 mo2 v2 : String)
    (mk1 md1 vt1 mk2 md2 vt2 : Nat)
    (hwf : WF s)
    (hne : ¬(m1 = m2 ∧ mo1 = mo2 ∧ v1 = v2))
    (hfresh : ∀ r ∈ s, ¬(r.product_id = p ∧ r.make = m1 ∧ r.model = mo1 ∧ r.variant = v1))
    (h1 : get_or_create_ids s p m1 mo1 v1 = some (mk1, md1, vt1))
    (hb1 : mk1 ≤ 999 ∧ md1 ≤ 999 ∧ vt1 ≤ 99)
    (h2 : get_or_create_ids (s ++ [⟨p, m1, mo1, v1, mkCompositeCode mk1 md1 vt1⟩])
      p m2 mo2 v2 = some (mk2, md2, vt2))
    (hb2 : mk2 ≤ 999 ∧ md2 ≤ 999 ∧ vt2 ≤ 99) :
    mkCompositeCode mk1 md1 vt1 ≠ mkCompositeCode mk2 md2 vt2 := by
  obtain ⟨hbk1, hbd1, hbv1⟩ := hb1
  obtain ⟨hbk2, hbd2, hbv2⟩ := hb2
  obtain ⟨hk1, hd1, hv1l, hfcode, hwfS⟩ :=
    alloc_fresh s p m1 mo1 v1 mk1 md1 vt1 hwf hfresh h1 hbk1 hbd1 hbv1
  by_cases hex : ∃ r, r ∈ s ++ [⟨p, m1, mo1, v1, mkCompositeCode mk1 md1 vt1⟩] ∧
      r.product_id = p ∧ r.make = m2 ∧ r.model = mo2 ∧ r.variant = v2
  · obtain ⟨r2, hr2, hp2, hm2e, hmo2e, hv2e⟩ := hex
    have He := alloc_reuse (s ++ [⟨p, m1, mo1, v1, mkCompositeCode mk1 md1 vt1⟩])
      p hwfS r2 hr2 hp2
    rw [hm2e, hmo2e, hv2e, h2] at He
    have hseq := Option.some.inj He
    rw [Prod.mk.injEq, Prod.mk.injEq] at hseq
    obtain ⟨e1, e2, e3⟩ := hseq
    have hcode2 : mkCompositeCode mk2 md2 vt2 = r2.ensuredit_id := by
      rw [e1, e2, e3]
      exact ((hwfS.1 r2 hr2).1).symm
    rcases List.mem_append.mp hr2 with hin | hnew
    · intro hcontra
      exact hfcode r2 hin hp2 (by rw [hcode2] at hcontra; exact hcontra.symm)
    · have hr2eq : r2 = ⟨p, m1, mo1, v1, mkCompositeCode mk1 md1 vt1⟩ :=
        List.mem_singleton.mp hnew
      rw [hr2eq] at hm2e hmo2e hv2e
      exact absurd ⟨hm2e, hmo2e, hv2e⟩ hne
  · have hfresh2 : ∀ r ∈ s ++ [⟨p, m1, mo1, v1, mkCompositeCode mk1 md1 vt1⟩],
        ¬(r.product_id = p ∧ r.make = m2 ∧ r.model = mo2 ∧ r.variant = v2) := by
      intro r hr hcon
      exact hex ⟨r, hr, hcon⟩
    obtain ⟨-, -, -, hfcode2, -⟩ :=
      alloc_fresh (s ++ [⟨p, m1, mo1, v1, mkCompositeCode mk1 md1 vt1⟩])
        p m2 mo2 v2 mk2 md2 vt2 hwfS hfresh2 h2 hbk2 hbd2 hbv2
    have hnrmem : (⟨p, m1, mo1, v1, mkCompositeCode mk1 md1 vt1⟩ : MMVRow) ∈
        s ++ [⟨p, m1, mo1, v1, mkCompositeCode mk1 md1 vt1⟩] :=
      List.mem_append.mpr (Or.inr (List.mem_singleton.mpr rfl))
    exact hfcode2 _ hnrmem rfl

/-- C3 witness: in the empty state, allocating `("A","B","C")` and then
`("A","B","D")` yields the distinct codes `10110101` and `10110102`. -/
theorem claim_C3_concrete : mkCompositeCode 101 101 1 ≠ mkCompositeCode 101 101 2 :=
  claim_C3_no_collision [] 1 "A" "B" "C" "A" "B" "D" 101 101 1 101 101 2
    (by decide) (by decide) (by decide) (by decide) (by decide) (by decide) (by decide)

/-- C4 counterexample: the claim says the make scan considers only codes
matching the scope's starting digit (`'1'` for product 1), predicting seed
prefix 101 for a product-1 scope whose single code is `"40150101"`; the
implementation filters by the `product_id` column instead and computes
prefix 402. -/
theorem claim_C4_digit_filter_refuted :
    get_or_create_ids [⟨1, "Honda", "City", "VX", "40150101"⟩] 1 "Yamaha" "M" "V" =
      some (402, 101, 1) ∧
    specDescribedMakeId [⟨1, "Honda", "City", "VX", "40150101"⟩] 1 = 101 ∧
    (402 : Nat) ≠ 101 := by
  refine ⟨by decide, by decide, by decide⟩

/-- C4 (amended): for a make with no existing row in the `product_id` scope,
the new 3-digit prefix equals the numeric maximum of the first 3 digits of
the scope's existing codes plus 1 — the scan filters rows by the
`product_id` column (plus a leading-digit regex), not by the code's
starting digit — seeded at 101 (product 1) or 401 (other products) when the
scope has no codes; a first model gets segment 101 and a first variant
segment 1 (zero-padded to `01` in the composite code). -/
theorem claim_C4_make_scan_amended (s : MMVState) (p : Nat) (m mo v : String)
    (hwf : WF s)
    (hfresh_make : ∀ r ∈ s, ¬(r.product_id = p ∧ r.make = m))
    (hbound : pyMaxFallback (mmvMakeMax s p) (makeStart p - 1) + 1 ≤ 999) :
    get_or_create_ids s p m mo v =
      some (pyMaxFallback (mmvMakeMax s p) (makeStart p - 1) + 1, 101, 1) ∧
    mmvMakeMax s p =
      some (maxOfList ((s.filter (fun r => r.product_id == p)).map
        (fun r => seg1 r.ensuredit_id))) ∧
    (∀ r ∈ s, r.product_id = p →
      seg1 r.ensuredit_id ≤ pyMaxFallback (mmvMakeMax s p) (makeStart p - 1)) ∧
    (s.filter (fun r => r.product_id == p) = [] →
      pyMaxFallback (mmvMakeMax s p) (makeStart p - 1) = makeStart p - 1) := by
  obtain ⟨hwf1, -, -, -⟩ := id hwf
  refine ⟨alloc_fresh_make_val s p m mo v hwf hfresh_make hbound,
    makeMax_char s p hwf1, (currentMaxMake_bounds s p hwf1).2, ?_⟩
  intro hnil
  rw [makeMax_char s p hwf1, hnil]
  rfl

/-- C4 witness: with existing max prefix 105 in product 1, a new make gets
`(106, 101, 1)`, i.e. composite code `"10610101"`. -/
theorem claim_C4_concrete :
    get_or_create_ids [⟨1, "Honda", "Activa", "Std", "10510101"⟩] 1 "Yamaha" "FZ" "STD" =
      some (106, 101, 1) ∧
    mkCompositeCode 106 101 1 = "10610101" := by
  have h := claim_C4_make_scan_amended [⟨1, "Honda", "Activa", "Std", "10510101"⟩] 1
    "Yamaha" "FZ" "STD" (by decide) (by decide) (by decide)
  exact ⟨h.1, by decide⟩

/-- C5: with `overwrite_existing = true`, every CSV row whose business key
matches an existing record (within the `product_id` scope when supplied) is
counted as updated regardless of the prior mapping content; the skipped
counter is untouched. -/
theorem claim_C5_overwrite_updates (t : DbTable) (cnt : BulkCounters)
    (dbCol si : String) (pid : Option Nat) (idCell pCell : CsvCell) (cur : Option String)
    (hsel : selectVal t dbCol pid (strip (cellStr idCell)) = .ok (some cur)) :
    ∃ t2, processRow dbCol si pid true idCell pCell (t, cnt) =
      .ok (t2, { cnt with updated := cnt.updated + 1 }) :=
  ⟨_, processRow_updates t cnt dbCol si pid true idCell pCell cur hsel (by simp)⟩

/-- C5 witness: a matched row with prior value `"\x7b\x7d"` and empty
payload is still counted as updated under overwrite. -/
theorem claim_C5_concrete :
    ∃ t2, processRow "icici" "icici" none true (CsvCell.s "400001") (CsvCell.s "")
      (⟨["icici"], [⟨"400001", 1, [("icici", some "\x7b\x7d")]⟩]⟩, ⟨0, 0, 0⟩) =
      .ok (t2, ⟨1, 0, 0⟩) :=
  claim_C5_overwrite_updates
    ⟨["icici"], [⟨"400001", 1, [("icici", some "\x7b\x7d")]⟩]⟩ ⟨0, 0, 0⟩
    "icici" "icici" none (CsvCell.s "400001") (CsvCell.s "") (some "\x7b\x7d") rfl

/-- C7: during bulk reconciliation, a CSV row whose business key does not
exist in the target table (within the `product_id` scope when supplied)
increments the error counter, modifies no record, and does not raise, so
the batch continues with the next row. -/
theorem claim_C7_notfound_error (t : DbTable) (cnt : BulkCounters) (dbCol si : String)
    (pid : Option Nat) (ov : Bool) (idCell pCell : CsvCell)
    (hsel : selectVal t dbCol pid (strip (cellStr idCell)) = .ok none) :
    processRow dbCol si pid ov idCell pCell (t, cnt) =
      .ok (t, { cnt with errors := cnt.errors + 1 }) :=
  processRow_notfound t cnt dbCol si pid ov idCell pCell hsel

/-- C7 witness: key `"999"` absent from the table is counted as an error
and leaves the table unchanged. -/
theorem claim_C7_concrete :
    processRow "icici" "icici" none false (CsvCell.s "999") (CsvCell.s "x")
      (⟨["icici"], [⟨"400001", 1, []⟩]⟩, ⟨0, 0, 0⟩) =
      .ok (⟨["icici"], [⟨"400001", 1, []⟩]⟩, ⟨0, 1, 0⟩) :=
  claim_C7_notfound_error ⟨["icici"], [⟨"400001", 1, []⟩]⟩ ⟨0, 0, 0⟩
    "icici" "icici" none false (CsvCell.s "999") (CsvCell.s "x") rfl

/-- C8: if the uploaded CSV has no column whose stripped, lower-cased name
is a recognised key-column alias, or none that is a recognised
payload-column alias, the upload is rejected before any row is processed
with a message naming the accepted aliases; the table is returned
untouched and no counters are produced. -/
theorem claim_C8_missing_columns (t : DbTable) (insurer : String) (df : CsvFrame)
    (ov : Bool) (pid : Option Nat)
    (h : (∀ c ∈ df.cols, validIdCols.contains (lowerStr (strip c)) = false) ∨
         (∀ c ∈ df.cols, (validPayloadCols (lowerStr insurer)).contains
           (lowerStr (strip c)) = false)) :
    process_bulk_mapping_upload t insurer df ov pid =
      (t, .rejected (rejectMsg insurer (df.cols.map strip))) := by
  have hmapped : ((findMapCols (lowerStr insurer) (df.cols.map strip)).1 = none) ∨
      ((findMapCols (lowerStr insurer) (df.cols.map strip)).2 = none) := by
    rcases h with h | h
    · left
      apply findMapCols_fst_none
      intro c hc
      obtain ⟨c0, hc0, rfl⟩ := List.mem_map.mp hc
      exact h c0 hc0
    · right
      apply findMapCols_snd_none
      intro c hc
      obtain ⟨c0, hc0, rfl⟩ := List.mem_map.mp hc
      exact h c0 hc0
  simp only [process_bulk_mapping_upload]
  rcases hfc : findMapCols (lowerStr insurer) (df.cols.map strip) with ⟨o1, o2⟩
  rw [hfc] at hmapped
  match o1, o2, hmapped with
  | none, none, _ => simp only [hfc]
  | none, some pCol, _ => simp only [hfc]
  | some idCol, none, _ => simp only [hfc]
  | some idCol, some pCol, hm =>
    rcases hm with hm | hm <;> cases hm

/-- C8 witness: a CSV whose columns are `foo` and `bar` is rejected with
the alias-naming message and the table untouched. -/
theorem claim_C8_concrete :
    process_bulk_mapping_upload ⟨["icici"], []⟩ "icici"
      ⟨["foo", "bar"], [[CsvCell.s "1", CsvCell.s "x"]]⟩ false none =
      (⟨["icici"], []⟩, .rejected (rejectMsg "icici" (["foo", "bar"].map strip))) :=
  claim_C8_missing_columns ⟨["icici"], []⟩ "icici"
    ⟨["foo", "bar"], [[CsvCell.s "1", CsvCell.s "x"]]⟩ false none (Or.inl (by decide))

/-- C6: all row writes of one bulk upload run inside a single transaction
that commits once after the last row: a committed outcome is exactly the
result of the whole row loop, on a rolled-back (exception) outcome the
visible table is the untouched initial one, and per-row skip and
key-not-found outcomes never raise (any row step on a table carrying the
insurer's column returns normally), so they are merely counted. -/
theorem claim_C6_transactionality (t : DbTable) (insurer : String) (df : CsvFrame)
    (ov : Bool) (pid : Option Nat) (t2 : DbTable) (outc : BulkOutcome)
    (h : process_bulk_mapping_upload t insurer df ov pid = (t2, outc)) :
    (∀ e, outc = .txError e → t2 = t) ∧
    (∀ c, outc = .done c → ∃ idCol pCol,
      findMapCols (lowerStr insurer) (df.cols.map strip) = (some idCol, some pCol) ∧
      runRows (lowerStr insurer) (lowerStr insurer) pid ov
        (bulkRows (df.cols.map strip) df.cells idCol pCol) (t, ⟨0, 0, 0⟩) = .ok (t2, c)) ∧
    (∀ (t0 : DbTable) (cnt : BulkCounters) (ic pc : CsvCell),
      lowerStr insurer ∈ t0.cols →
      ∃ res, processRow (lowerStr insurer) (lowerStr insurer) pid ov ic pc (t0, cnt) =
        .ok res) := by
  refine ⟨?_, ?_, ?_⟩
  · intro e he
    rw [he] at h
    exact process_txError_inv t insurer df ov pid t2 e h
  · intro c hc
    rw [hc] at h
    exact process_done_inv t insurer df ov pid t2 c h
  · intro t0 cnt ic pc hmem
    cases hsel : selectVal t0 (lowerStr insurer) pid (strip (cellStr ic)) with
    | error e =>
      rw [selectVal_of_mem _ _ _ _ hmem] at hsel
      cases hsel
    | ok result =>
      cases result with
      | none =>
        exact ⟨_, processRow_notfound t0 cnt (lowerStr insurer) (lowerStr insurer)
          pid ov ic pc hsel⟩
      | some cur =>
        cases hb : (if ov then true
            else if cur.isNone || cur == some "" || cur == some "\x7b\x7d" then
              normalizePayload pc != ""
            else if cur.getD "" != normalizePayload pc then true
            else false) with
        | false =>
          exact ⟨_, processRow_skips t0 cnt (lowerStr insurer) (lowerStr insurer)
            pid ov ic pc cur hsel hb⟩
        | true =>
          exact ⟨_, processRow_updates t0 cnt (lowerStr insurer) (lowerStr insurer)
            pid ov ic pc cur hsel hb⟩

/-- C6 witness: a batch whose insurer column is missing raises at the first
row; the transaction rolls back and the visible table is the initial one. -/
theorem claim_C6_concrete :
    process_bulk_mapping_upload ⟨["digit"], [⟨"400001", 1, []⟩]⟩ "icici"
      ⟨["id", "icici"], [[CsvCell.s "400001", CsvCell.s "x"]]⟩ false none =
      (⟨["digit"], [⟨"400001", 1, []⟩]⟩, .txError ("no such column: " ++ "icici")) ∧
    (⟨["digit"], [⟨"400001", 1, []⟩]⟩ : DbTable) = ⟨["digit"], [⟨"400001", 1, []⟩]⟩ := by
  have hrun : process_bulk_mapping_upload ⟨["digit"], [⟨"400001", 1, []⟩]⟩ "icici"
      ⟨["id", "icici"], [[CsvCell.s "400001", CsvCell.s "x"]]⟩ false none =
      (⟨["digit"], [⟨"400001", 1, []⟩]⟩, .txError ("no such column: " ++ "icici")) := by
    decide
  exact ⟨hrun, (claim_C6_transactionality _ "icici" _ false none _ _ hrun).1 _ rfl⟩

/-- C9 counterexample: the regex filter `~ '^[0-9]+'` only requires a
numeric first character, so `"12ab"` passes the filter and the integer
cast then fails, making the whole max query error (swallowed by
`run_query`, so `get_next_rto_id` silently falls back to 1 although the
fully numeric id `"5"` exists); likewise the make-max scan errors on the
code `"12a45678"`.  So the scans do not ensure that the max computation
succeeds on every state with malformed codes. -/
theorem claim_C9_filter_refuted :
    rtoMaxQuery ["12ab"] = none ∧
    get_next_rto_id ["5", "12ab"] = 1 ∧
    mmvMakeMax [⟨1, "A", "B", "C", "12a45678"⟩] 1 = none := by
  refine ⟨by decide, by decide, by decide⟩

/-- C9 (amended): the scans filter only on whether the (trimmed) code starts
with a digit; that makes the max computation safe exactly when every code
passing the filter casts cleanly, in which case the query succeeds and
precisely the filter-passing codes contribute to the maximum.  A code
starting with a digit but containing non-digits later still makes the
whole query fail (the callers then fall back to their seed values). -/
theorem claim_C9_numeric_scan_amended (ids : List String) (s : MMVState) (p : Nat)
    (hids : ∀ i ∈ ids, numHead i = true → (pgCastNat i).isSome = true)
    (hs : ∀ r ∈ s, (r.product_id == p && numHead (strip r.ensuredit_id)) = true →
      (pgCastNat (sqlSubstr (strip r.ensuredit_id) 1 3)).isSome = true) :
    rtoMaxQuery ids =
      some (maxOfList ((ids.filter numHead).map (fun i => (pgCastNat i).getD 0))) ∧
    mmvMakeMax s p =
      some (maxOfList ((s.filter (fun r => r.product_id == p &&
        numHead (strip r.ensuredit_id))).map
        (fun r => (pgCastNat (sqlSubstr (strip r.ensuredit_id) 1 3)).getD 0))) := by
  constructor
  · unfold rtoMaxQuery
    rw [seqOpts_of_all_some (ids.filter numHead) pgCastNat
      (fun i => (pgCastNat i).getD 0) ?hall]
    case hall =>
      intro i hi
      have hnum := List.of_mem_filter hi
      have hsome := hids i (List.mem_of_mem_filter hi) hnum
      cases hc : pgCastNat i with
      | none => rw [hc] at hsome; cases hsome
      | some n => simp [hc]
  · unfold mmvMakeMax
    rw [seqOpts_of_all_some
      (s.filter (fun r => r.product_id == p && numHead (strip r.ensuredit_id)))
      (fun r => pgCastNat (sqlSubstr (strip r.ensuredit_id) 1 3))
      (fun r => (pgCastNat (sqlSubstr (strip r.ensuredit_id) 1 3)).getD 0) ?hall2]
    case hall2 =>
      intro r hr
      have hpred := List.of_mem_filter hr
      have hsome := hs r (List.mem_of_mem_filter hr) hpred
      cases hc : pgCastNat (sqlSubstr (strip r.ensuredit_id) 1 3) with
      | none => rw [hc] at hsome; cases hsome
      | some n => simp [hc]

/-- C9 witness: on fully numeric ids and codes both scans succeed and
return the maximum of the contributing values. -/
theorem claim_C9_concrete :
    rtoMaxQuery ["5", "17"] = some (some 17) ∧
    mmvMakeMax [⟨1, "A", "B", "C", "10110101"⟩] 1 = some (some 101) := by
  have h := claim_C9_numeric_scan_amended ["5", "17"]
    [⟨1, "A", "B", "C", "10110101"⟩] 1 (by decide) (by decide)
  exact ⟨h.1, h.2⟩

/-- C10: whenever the bulk reconciler decides to update a row with an
empty normalised payload (raw cell NaN/None/null/blank), it writes SQL
`NULL`, never the empty string: after a committed batch every row of the
table either was already present before the upload or holds a value other
than the non-NULL empty string in the insurer's column. -/
theorem claim_C10_no_empty_persist (t : DbTable) (insurer : String) (df : CsvFrame)
    (ov : Bool) (pid : Option Nat) (t2 : DbTable) (c : BulkCounters)
    (h : process_bulk_mapping_upload t insurer df ov pid = (t2, .done c)) :
    ∀ r ∈ t2.rows, r ∈ t.rows ∨ lookupVal r (lowerStr insurer) ≠ some "" := by
  obtain ⟨idCol, pCol, hfc, hrun⟩ := process_done_inv t insurer df ov pid t2 c h
  exact runRows_preserve (lowerStr insurer) (lowerStr insurer) pid ov
    (fun r => r ∈ t.rows ∨ lookupVal r (lowerStr insurer) ≠ some "")
    (fun t0 cnt t1 cnt1 ic pc hstep hinv r hr => by
      rcases processRow_no_empty_write (lowerStr insurer) (lowerStr insurer)
        pid ov ic pc t0 cnt t1 cnt1 hstep r hr with hmem | hne
      · exact hinv r hmem
      · exact Or.inr hne)
    _ _ _ _ hrun (fun r hr => Or.inl hr)

/-- C10 witness: overwriting with an empty payload stores `NULL` (`none`),
so the freshly written row does not carry the non-NULL empty string. -/
theorem claim_C10_concrete :
    lookupVal ⟨"400001", 1, [("icici", none), ("icici", some "v")]⟩ "icici" ≠ some "" := by
  have h : process_bulk_mapping_upload ⟨["icici"], [⟨"400001", 1, [("icici", some "v")]⟩]⟩
      "icici" ⟨["id", "icici"], [[CsvCell.s "400001", CsvCell.s ""]]⟩ true none =
      (⟨["icici"], [⟨"400001", 1, [("icici", none), ("icici", some "v")]⟩]⟩,
        .done ⟨1, 0, 0⟩) := by
    decide
  have h2 := claim_C10_no_empty_persist _ "icici" _ true none _ _ h
    ⟨"400001", 1, [("icici", none), ("icici", some "v")]⟩ (by decide)
  rcases h2 with hmem | hne
  · exact absurd hmem (by decide)
  · exact hne
